import Mathlib

/-!
# ScreenSearch core: a shallow embedding with proofs

This file embeds the retrieval, reranking, capture and tagging logic of the
ScreenSearch repository in Lean 4 and proves (or refutes) the specification
claims about them.

Modelling conventions, used throughout:

* `f32` values are modelled as exact rationals (`ℚ`).  All the floating
  computations the theorems below depend on are exact in IEEE arithmetic on
  the inputs considered (integer-valued sums, counts, zero tests), so the
  rational model agrees with the `f32` computation there.  The one genuinely
  irrational operation, `f32::sqrt`, is modelled by `sqrtQ`, which is exact
  on perfect squares (the only case the development evaluates).
* The `0.0_f32 / 0.0_f32 = NaN` corner is modelled explicitly where it can be
  reached: `pixel_difference` returns `Option ℚ` with `none` for the NaN of
  an empty image, and `histogram_difference` returns `1` for an empty image
  (in Rust, `NaN.min(1.0) = 1.0`).  A `NaN > threshold` comparison is false
  for every threshold, which `diffExceeds` mirrors.
* `i64`/`i32` are modelled as `Int`; timestamps (`DateTime<Utc>`) as `Int`
  Unix seconds; `usize` loop counters as `Nat`.
* SQLite tables are lists of records.  The FTS5 index (`MATCH` + `bm25`) is
  external to the repository and is modelled as a parameter
  `rank : Int → Option ℚ` giving the BM25 rank of each matching `ocr_text`
  row id (`none` = no match); SQL `WHERE`/`ORDER BY`/`LIMIT`/`OFFSET`
  clauses are embedded structurally.
* Rust `HashMap` iteration order is unspecified.  Wherever the source
  iterates `HashMap::into_values`, the embedding takes the iteration order
  as an explicit function parameter; theorems quantify over every order that
  is a permutation of the collected values.
* `Vec::sort_by(|a, b| b.x.partial_cmp(&a.x).unwrap_or(Equal))` (a stable
  sort) is modelled by `List.insertionSort` with the corresponding total
  relation, which is likewise stable.
-/

namespace ScreenSearch

/-! ## Records (screensearch-db/src/models.rs)

Only the fields read by the embedded operations are carried; the remaining
columns (paths, geometry, `created_at`, ...) are payload that the embedded
functions copy around untouched. -/

/-- A row of the `frames` table (`FrameRecord`). -/
structure FrameRecord where
  id : Int
  timestamp : Int
  monitorIndex : Int
  deviceName : String
  activeProcess : Option String
  deriving DecidableEq, Repr

/-- A row of the `ocr_text` table (`OcrTextRecord`). -/
structure OcrTextRecord where
  id : Int
  frameId : Int
  text : String
  deriving DecidableEq, Repr

/-- A row of the `embeddings` table with the BLOB already decoded to a
vector: `semantic_search` decodes the BLOB with `chunks_exact(4)` /
`f32::from_le_bytes`, so the decoded length is `blob.len() / 4`. -/
structure EmbRow where
  frameId : Int
  chunkText : String
  chunkIndex : Int
  vector : List ℚ
  deriving DecidableEq, Repr

/-- `SemanticResult` (declared in the db crate, fields as used by
`vector_search.rs` and `reranker.rs`). -/
structure SemanticResult where
  frame : FrameRecord
  chunkText : String
  chunkIndex : Int
  similarityScore : ℚ
  deriving DecidableEq, Repr

/-- `SearchResult` (`models.rs`); `tags` is always left empty by
`search_ocr_text` and is omitted. -/
structure SearchResult where
  frame : FrameRecord
  ocrMatches : List OcrTextRecord
  relevanceScore : ℚ
  deriving DecidableEq, Repr

/-- `FrameFilter` (`models.rs`).  `tag_ids` is never consulted by the
embedded queries and is omitted. -/
structure FrameFilter where
  startTime : Option Int := none
  endTime : Option Int := none
  appName : Option String := none
  deviceName : Option String := none
  monitorIndex : Option Int := none
  deriving DecidableEq, Repr

/-- `FrameFilter::default()`: every field `None`. -/
def FrameFilter.default : FrameFilter := {}

/-- `Pagination` (`models.rs`). -/
structure Pagination where
  limit : Int
  offset : Int
  deriving DecidableEq, Repr

/-- The database state touched by the retrieval engine. -/
structure Db where
  frames : List FrameRecord
  ocrTexts : List OcrTextRecord
  embeddings : List EmbRow
  deriving DecidableEq, Repr

/-! ## Cosine similarity (screensearch-db/src/vector_search.rs, 81-95) -/

/-- Elementwise dot product of two equal-length vectors
(`a.iter().zip(b.iter()).map(|(x, y)| x * y).sum()`). -/
def dotProduct (a b : List ℚ) : ℚ :=
  ((a.zip b).map (fun p => p.1 * p.2)).sum

/-- Model of `f32::sqrt` on exact rationals: exact on perfect squares
(the only inputs evaluated in this development). -/
def sqrtQ (q : ℚ) : ℚ :=
  (Nat.sqrt q.num.toNat : ℚ) / (Nat.sqrt q.den : ℚ)

/-- `cosine_similarity` (vector_search.rs 81-95): returns `0.0` on length
mismatch or empty input, and `0.0` when either norm is zero; otherwise
`dot / (norm_a * norm_b)`. -/
def cosine_similarity (a b : List ℚ) : ℚ :=
  if a.length ≠ b.length ∨ a.isEmpty then 0
  else
    let dot := dotProduct a b
    let normA := sqrtQ (dotProduct a a)
    let normB := sqrtQ (dotProduct b b)
    if normA = 0 ∨ normB = 0 then 0
    else dot / (normA * normB)

/-! ## Semantic search (vector_search.rs 121-213) -/

/-- One entry of the `candidates` vector built by `semantic_search`. -/
structure Candidate where
  frameId : Int
  chunkText : String
  chunkIndex : Int
  score : ℚ
  deriving DecidableEq, Repr

/-- Descending comparison used to model
`sort_by(|a, b| b.3.partial_cmp(&a.3).unwrap_or(Equal))`. -/
def candGE (a b : Candidate) : Prop := b.score ≤ a.score

instance : DecidableRel candGE := fun a b => inferInstanceAs (Decidable (b.score ≤ a.score))

instance : IsTotal Candidate candGE := ⟨fun a b => (le_total b.score a.score).imp id id⟩

instance : IsTrans Candidate candGE :=
  ⟨fun _ _ _ h h2 => le_trans h2 h⟩

/-- `semantic_search` (vector_search.rs 121-213): score every embedding row
against the query, sort descending, take the top K, then join each survivor
with its frame row (rows whose frame is missing are dropped). -/
def semantic_search (db : Db) (queryEmbedding : List ℚ) (limit : Int) :
    List SemanticResult :=
  let candidates : List Candidate := db.embeddings.map (fun r =>
    { frameId := r.frameId, chunkText := r.chunkText, chunkIndex := r.chunkIndex
      score := cosine_similarity queryEmbedding r.vector })
  let sorted := List.insertionSort candGE candidates
  let topK := sorted.take limit.toNat
  topK.filterMap (fun c =>
    (db.frames.find? (fun f => f.id = c.frameId)).map (fun f =>
      { frame := f, chunkText := c.chunkText, chunkIndex := c.chunkIndex
        similarityScore := c.score }))

/-! ## Lexical search (screensearch-db/src/queries.rs, 263-379) -/

/-- One row returned by the `search_ocr_text` SQL: the joined frame, the
matched `ocr_text` row, and `ocr_text_fts.rank`. -/
structure FtsRow where
  frame : FrameRecord
  ocr : OcrTextRecord
  rank : ℚ
  deriving DecidableEq, Repr

/-- The optional `WHERE` clauses appended by `search_ocr_text`:
`f.timestamp >= start`, `f.timestamp <= end`, `f.active_process = app`,
`f.device_name = device` (SQL `NULL = x` is never true, hence the
`some`-comparison for the process). -/
def matchesFilter (filter : FrameFilter) (f : FrameRecord) : Bool :=
  (match filter.startTime with
   | none => true
   | some s => (s ≤ f.timestamp : Bool)) &&
  (match filter.endTime with
   | none => true
   | some e => (f.timestamp ≤ e : Bool)) &&
  (match filter.appName with
   | none => true
   | some a => f.activeProcess = some a) &&
  (match filter.deviceName with
   | none => true
   | some d => f.deviceName = d)

/-- Ascending rank comparison, modelling `ORDER BY ocr_text_fts.rank ASC`
(ties ordered by the stable scan order). -/
def ftsRowLE (a b : FtsRow) : Prop := a.rank ≤ b.rank

instance : DecidableRel ftsRowLE := fun a b => inferInstanceAs (Decidable (a.rank ≤ b.rank))

/-- The SQL of `search_ocr_text`: the matching rows joined with their frames,
filtered, ordered by rank ascending, then `LIMIT ? OFFSET ?`. -/
def ftsRows (db : Db) (rank : Int → Option ℚ) (filter : FrameFilter)
    (p : Pagination) : List FtsRow :=
  let matched := db.ocrTexts.filterMap (fun o =>
    match rank o.id, db.frames.find? (fun f => f.id = o.frameId) with
    | some rk, some f =>
        if matchesFilter filter f then some ⟨f, o, rk⟩ else none
    | _, _ => none)
  let ordered := List.insertionSort ftsRowLE matched
  (ordered.drop p.offset.toNat).take p.limit.toNat

/-- One step of the row-grouping loop in `search_ocr_text` (queries.rs
326-373): `results.entry(frame.id).or_insert_with(new SearchResult).
ocr_matches.push(ocr)`.  The relevance score of a frame is fixed by its
first row (`-rank`, rows arrive ordered best-first). -/
def addRow (acc : List SearchResult) (row : FtsRow) : List SearchResult :=
  if acc.any (fun r => r.frame.id = row.frame.id) then
    acc.map (fun r =>
      if r.frame.id = row.frame.id then
        { r with ocrMatches := r.ocrMatches ++ [row.ocr] }
      else r)
  else
    acc ++ [{ frame := row.frame, ocrMatches := [row.ocr]
              relevanceScore := -row.rank }]

/-- The grouping loop of `search_ocr_text`, producing one `SearchResult` per
frame, keyed in first-occurrence order (the `HashMap` insertion order). -/
def groupRows (rows : List FtsRow) : List SearchResult :=
  rows.foldl addRow []

/-- Descending comparison on `relevance_score`, modelling
`sort_by(|a, b| b.relevance_score.partial_cmp(&a.relevance_score).unwrap())`. -/
def resGE (a b : SearchResult) : Prop := b.relevanceScore ≤ a.relevanceScore

instance : DecidableRel resGE := fun a b =>
  inferInstanceAs (Decidable (b.relevanceScore ≤ a.relevanceScore))

instance : IsTotal SearchResult resGE :=
  ⟨fun a b => (le_total b.relevanceScore a.relevanceScore).imp id id⟩

instance : IsTrans SearchResult resGE :=
  ⟨fun _ _ _ h h2 => le_trans h2 h⟩

/-- `search_ocr_text` (queries.rs 263-379).  `hashOrder` models the
unspecified iteration order of `results.into_values()`; the intended
instantiations are exactly the permutations of the grouped list. -/
def search_ocr_text (db : Db) (rank : Int → Option ℚ) (filter : FrameFilter)
    (p : Pagination) (hashOrder : List SearchResult → List SearchResult) :
    List SearchResult :=
  List.insertionSort resGE (hashOrder (groupRows (ftsRows db rank filter p)))

/-! ## Hybrid search (vector_search.rs 216-278) -/

/-- The fusion map `HashMap<(i64, String), SemanticResult>`, modelled as an
association list (its key order never reaches the output: `into_values`
iteration is a separate, quantified parameter). -/
abbrev MergedMap := List ((Int × String) × SemanticResult)

/-- `merged.insert(key, value)`: overwrite the entry at `key`, or append. -/
def mapInsert (m : MergedMap) (k : Int × String) (v : SemanticResult) :
    MergedMap :=
  if m.any (fun e => e.1 = k) then
    m.map (fun e => if e.1 = k then (k, v) else e)
  else m ++ [(k, v)]

/-- `merged.entry(key).and_modify(|e| e.similarity_score += boost)
.or_insert_with(default)`. -/
def mapAddOrInsert (m : MergedMap) (k : Int × String) (boost : ℚ)
    (default : SemanticResult) : MergedMap :=
  if m.any (fun e => e.1 = k) then
    m.map (fun e =>
      if e.1 = k then
        (e.1, { e.2 with similarityScore := e.2.similarityScore + boost })
      else e)
  else m ++ [(k, default)]

/-- Phase 1 of the fusion: insert every semantic result keyed by
`(frame.id, chunk_text)` with its score multiplied by `alpha`. -/
def fuseSem (sem : List SemanticResult) (alpha : ℚ) : MergedMap :=
  sem.foldl (fun m res =>
    mapInsert m (res.frame.id, res.chunkText)
      { res with similarityScore := res.similarityScore * alpha }) []

/-- The `(key, boost, default)` contributions of one FTS result in phase 2:
one per OCR match, keyed `(fts.frame.id, match.text)`, with
`score_boost = fts.relevance_score * (1 - alpha)` and the enumerate index as
the default chunk index. -/
def lexTriples (alpha : ℚ) (fts : SearchResult) :
    List ((Int × String) × ℚ × SemanticResult) :=
  fts.ocrMatches.enum.map (fun p =>
    ((fts.frame.id, p.2.text), fts.relevanceScore * (1 - alpha),
      { frame := fts.frame, chunkText := p.2.text, chunkIndex := (p.1 : Int)
        similarityScore := fts.relevanceScore * (1 - alpha) }))

/-- Phase 2 of the fusion: add or insert every lexical contribution. -/
def fuseLex (m : MergedMap) (ftsList : List SearchResult) (alpha : ℚ) :
    MergedMap :=
  ftsList.foldl (fun m fts =>
    (lexTriples alpha fts).foldl (fun m t => mapAddOrInsert m t.1 t.2.1 t.2.2) m) m

/-- Descending comparison on `similarity_score` for the final sort. -/
def semGE (a b : SemanticResult) : Prop := b.similarityScore ≤ a.similarityScore

instance : DecidableRel semGE := fun a b =>
  inferInstanceAs (Decidable (b.similarityScore ≤ a.similarityScore))

instance : IsTotal SemanticResult semGE :=
  ⟨fun a b => (le_total b.similarityScore a.similarityScore).imp id id⟩

instance : IsTrans SemanticResult semGE :=
  ⟨fun _ _ _ h h2 => le_trans h2 h⟩

/-- `hybrid_search` (vector_search.rs 216-278).  NOTE, faithful to the
source: the function takes no time window at all, and the lexical leg runs
with `FrameFilter::default()` — no time filter — while the semantic leg
scans every embedding row.  The query text only feeds the FTS `MATCH` and is
absorbed by `rank`.  `lexOrder` and `mergedOrder` are the two unspecified
`HashMap` iteration orders. -/
def hybrid_search (db : Db) (rank : Int → Option ℚ) (queryEmbedding : List ℚ)
    (alpha : ℚ) (limit : Int)
    (lexOrder : List SearchResult → List SearchResult)
    (mergedOrder : List SemanticResult → List SemanticResult) :
    List SemanticResult :=
  let sem := semantic_search db queryEmbedding limit
  let fts := search_ocr_text db rank FrameFilter.default ⟨limit, 0⟩ lexOrder
  let merged := fuseLex (fuseSem sem alpha) fts alpha
  (List.insertionSort semGE (mergedOrder (merged.map (fun e => e.2)))).take
    limit.toNat

/-- Modelled from the spec: the `hybrid_search(query_text, query_vec, alpha,
limit, start, end)` contract that `rag_helpers.rs` calls (its six-argument
form is absent from the store sources; only the caller and the spec describe
it).  Per the spec, both the semantic and the lexical leg are restricted to
frames with `start ≤ timestamp ≤ end`. -/
def hybrid_search_spec (db : Db) (rank : Int → Option ℚ)
    (queryEmbedding : List ℚ) (alpha : ℚ) (limit : Int) (start finish : Int)
    (lexOrder : List SearchResult → List SearchResult)
    (mergedOrder : List SemanticResult → List SemanticResult) :
    List SemanticResult :=
  let windowDb : Db :=
    { db with frames := db.frames.filter (fun f =>
        start ≤ f.timestamp && f.timestamp ≤ finish) }
  let sem := semantic_search windowDb queryEmbedding limit
  let fts := search_ocr_text db rank
    { FrameFilter.default with startTime := some start, endTime := some finish }
    ⟨limit, 0⟩ lexOrder
  let merged := fuseLex (fuseSem sem alpha) fts alpha
  (List.insertionSort semGE (mergedOrder (merged.map (fun e => e.2)))).take
    limit.toNat

/-! ## Reranker (screensearch-api/src/handlers/reranker.rs, 39-111) -/

/-- `RerankConfig` (reranker.rs 11-20). -/
structure RerankConfig where
  top_k : Nat
  recency_weight : ℚ
  length_weight : ℚ
  min_score : ℚ
  deriving DecidableEq, Repr

/-- Descending comparison on the combined score of a scored pair. -/
def pairGE (a b : ℚ × SemanticResult) : Prop := b.1 ≤ a.1

instance : DecidableRel pairGE := fun a b => inferInstanceAs (Decidable (b.1 ≤ a.1))

instance : IsTotal (ℚ × SemanticResult) pairGE :=
  ⟨fun a b => (le_total b.1 a.1).imp id id⟩

instance : IsTrans (ℚ × SemanticResult) pairGE :=
  ⟨fun _ _ _ h h2 => le_trans h2 h⟩

/-- The deduplication loop of `rerank_results` (reranker.rs 92-107): keep
the first (best) entry per frame id, overwrite its score with the combined
score, and break once `top_k` entries are kept — note the push happens
before the break test, so `top_k = 0` still emits one entry. -/
def dedupTake (topK : Nat) (seen : List Int) :
    List (ℚ × SemanticResult) → List SemanticResult
  | [] => []
  | (s, r) :: rest =>
    if r.frame.id ∈ seen then dedupTake topK seen rest
    else
      { r with similarityScore := s } ::
        (if seen.length + 1 < topK then dedupTake topK (r.frame.id :: seen) rest
         else [])

/-- The combined-score computation of `rerank_results` (reranker.rs 52-86):
min/max timestamp and max length are taken over the list it receives;
each entry is paired with
`base + recency_normalised·recency_weight + length_normalised·length_weight`.
(Corner note: when every chunk text is empty the Rust `0.0/0.0` length
normalisation is NaN; the model yields `0`.  No theorem below depends on
that corner.) -/
def combinedScores (kept : List SemanticResult) (config : RerankConfig) :
    List (ℚ × SemanticResult) :=
  let timestamps := kept.map (fun r => r.frame.timestamp)
  let minT := timestamps.min?.getD 0
  let maxT := timestamps.max?.getD 0
  let timeRange : ℚ := ((max (maxT - minT) 1 : Int) : ℚ)
  let maxLen : ℚ := (((kept.map (fun r => r.chunkText.length)).max?.getD 1 : Nat) : ℚ)
  kept.map (fun r =>
    (r.similarityScore
      + ((r.frame.timestamp - minT : Int) : ℚ) / timeRange * config.recency_weight
      + (r.chunkText.length : ℚ) / maxLen * config.length_weight, r))

/-- `rerank_results` (reranker.rs 39-111).  Faithful to the source order of
operations: the `min_score` filter runs FIRST, on the raw similarity
scores, before the recency/length boosts, the sort, the deduplication and
the truncation. -/
def rerank_results (results : List SemanticResult) (config : RerankConfig) :
    List SemanticResult :=
  if results.isEmpty then results
  else
    dedupTake config.top_k []
      (List.insertionSort pairGE
        (combinedScores
          (results.filter (fun r => config.min_score ≤ r.similarityScore)) config))

/-- Deduplication without the `top_k` break, used by the claim-order
pipeline below. -/
def dedupAll (seen : List Int) :
    List (ℚ × SemanticResult) → List SemanticResult
  | [] => []
  | (s, r) :: rest =>
    if r.frame.id ∈ seen then dedupAll seen rest
    else { r with similarityScore := s } :: dedupAll (r.frame.id :: seen) rest

/-- The reranker as claim C3 (and spec §4.7) orders it: compute the same
combined scores and sort, deduplicate best-per-frame, truncate to `top_k`,
and only THEN drop entries whose final combined score is below
`min_score`.  Written from the claim wording, to be compared with
`rerank_results`. -/
def rerank_claim_order (results : List SemanticResult) (config : RerankConfig) :
    List SemanticResult :=
  if results.isEmpty then results
  else
    ((dedupAll []
        (List.insertionSort pairGE (combinedScores results config))).take
      config.top_k).filter (fun r => config.min_score ≤ r.similarityScore)

/-! ## Frame differencer (screensearch-capture/src/frame_diff.rs) -/

/-- An RGBA pixel (`image::Rgba<u8>`). -/
structure Pixel where
  r : Nat
  g : Nat
  b : Nat
  a : Nat
  deriving DecidableEq, Repr

/-- An `RgbaImage`: dimensions plus row-major pixel list. -/
structure Image where
  width : Nat
  height : Nat
  pixels : List Pixel
  deriving DecidableEq, Repr

/-- `get_pixel(x, y)` on a row-major buffer. -/
def Image.getPixel (img : Image) (x y : Nat) : Pixel :=
  (img.pixels.drop (y * img.width + x)).headD ⟨0, 0, 0, 0⟩

/-- `DiffMethod` (frame_diff.rs 12-19). -/
inductive DiffMethod where
  | Pixel
  | Histogram
  | Ssim
  deriving DecidableEq, Repr

/-- `FrameDiffer` (frame_diff.rs 22-26). -/
structure FrameDiffer where
  threshold : ℚ
  lastFrame : Option Image
  method : DiffMethod
  deriving DecidableEq, Repr

/-- `FrameDiffer::new` — histogram by default. -/
def FrameDiffer.new (threshold : ℚ) : FrameDiffer :=
  ⟨threshold, none, .Histogram⟩

/-- `FrameDiffer::with_method`. -/
def FrameDiffer.with_method (threshold : ℚ) (method : DiffMethod) : FrameDiffer :=
  ⟨threshold, none, method⟩

/-- `pixel_difference` (frame_diff.rs 75-86): fraction of differing pixels.
`none` models the `0.0/0.0 = NaN` of an empty image. -/
def pixel_difference (f1 f2 : Image) : Option ℚ :=
  let total := f1.width * f1.height
  let diff := (f1.pixels.zip f2.pixels).countP (fun p => p.1 ≠ p.2)
  if total = 0 then none else some ((diff : ℚ) / (total : ℚ))

/-- The red/green/blue histogram counts with 16 bins per channel
(frame_diff.rs 94-111): bin `(channel * 16) / 256`. -/
def histCount (img : Image) (channel : Pixel → Nat) (bin : Nat) : Nat :=
  img.pixels.countP (fun p => channel p * 16 / 256 = bin)

/-- One χ² term: `(h1 - h2)² / (h1 + h2)` when `h1 + h2 > 0`, else `0`. -/
def chiTerm (h1 h2 : Nat) : ℚ :=
  if 0 < h1 + h2 then ((h1 : ℚ) - (h2 : ℚ))^2 / ((h1 : ℚ) + (h2 : ℚ)) else 0

/-- `histogram_difference` (frame_diff.rs 89-126): χ² distance of the RGB
histograms, normalised by pixel count and clamped by `min(·, 1)`.  For an
empty image the Rust normalisation is `NaN`, and `NaN.min(1.0) = 1.0`; the
model returns `1` there. -/
def histogram_difference (f1 f2 : Image) : ℚ :=
  let chi :=
    ((List.range 16).map (fun i =>
        chiTerm (histCount f1 (fun p => p.r) i) (histCount f2 (fun p => p.r) i))).sum
    + ((List.range 16).map (fun i =>
        chiTerm (histCount f1 (fun p => p.g) i) (histCount f2 (fun p => p.g) i))).sum
    + ((List.range 16).map (fun i =>
        chiTerm (histCount f1 (fun p => p.b) i) (histCount f2 (fun p => p.b) i))).sum
  let total := f1.width * f1.height
  if total = 0 then 1 else min (chi / (total : ℚ)) 1

/-- Luminance grayscale of a pixel (frame_diff.rs 189-190), with the `f32`
coefficients as exact rationals. -/
def gray (p : Pixel) : ℚ :=
  (299 * (p.r : ℚ) + 587 * (p.g : ℚ) + 114 * (p.b : ℚ)) / 1000

/-- `K1`/`K2`/`L` SSIM stabilisers as exact rationals. -/
def ssimC1 : ℚ := ((1 / 100 : ℚ) * 255)^2

def ssimC2 : ℚ := ((3 / 100 : ℚ) * 255)^2

/-- The core of `ssim_window` (frame_diff.rs 166-214) on the two grayscale
sample lists of a window. -/
def ssim_window_vals (g1 g2 : List ℚ) : ℚ :=
  let count : ℚ := 64
  let sum1 := g1.sum
  let sum2 := g2.sum
  let sum1Sq := (g1.map (fun x => x * x)).sum
  let sum2Sq := (g2.map (fun x => x * x)).sum
  let sum12 := ((g1.zip g2).map (fun p => p.1 * p.2)).sum
  let mean1 := sum1 / count
  let mean2 := sum2 / count
  let var1 := sum1Sq / count - mean1 * mean1
  let var2 := sum2Sq / count - mean2 * mean2
  let covar := sum12 / count - mean1 * mean2
  let numerator := (2 * mean1 * mean2 + ssimC1) * (2 * covar + ssimC2)
  let denominator :=
    (mean1 * mean1 + mean2 * mean2 + ssimC1) * (var1 + var2 + ssimC2)
  if denominator = 0 then 1 else numerator / denominator

/-- The 8×8 grayscale sample of a window at `(x, y)`, row by row
(frame_diff.rs 183-197). -/
def windowGrays (img : Image) (x y : Nat) : List ℚ :=
  ((List.range 8).map (fun dy =>
    (List.range 8).map (fun dx => gray (img.getPixel (x + dx) (y + dy))))).flatten

/-- `ssim_window` on two images. -/
def ssim_window (f1 f2 : Image) (x y : Nat) : ℚ :=
  ssim_window_vals (windowGrays f1 x y) (windowGrays f2 x y)

/-- The window start coordinates of `(0..lim).step_by(8)` (exclusive upper
bound `lim`). -/
def windowStarts (lim : Nat) : List Nat :=
  (List.range ((lim + 7) / 8)).map (fun i => i * 8)

/-- `ssim` (frame_diff.rs 130-162): below an 8×8 image it returns the
PIXEL DIFFERENCE as its value (frame_diff.rs 141-143) — the caller still
inverts it with `1.0 - …` — otherwise the mean of the sampled window
SSIMs, `0.0` when no window was sampled (which happens whenever
`width = 8` or `height = 8`, since the loops run over `0..dim - 8`
exclusive).  `none` models the NaN the fallback yields on an empty
image. -/
def ssim (f1 f2 : Image) : Option ℚ :=
  if f1.width < 8 ∨ f1.height < 8 then pixel_difference f1 f2
  else
    let wins := (windowStarts (f1.height - 8)).flatMap (fun y =>
      (windowStarts (f1.width - 8)).map (fun x => ssim_window f1 f2 x y))
    some (if wins.length = 0 then 0 else wins.sum / (wins.length : ℚ))

/-- `calculate_difference` (frame_diff.rs 62-72): dimension mismatch is a
full change; otherwise dispatch on the method, the `Ssim` branch computing
`1.0 - self.ssim(frame1, frame2)` (the small-image fallback lives inside
`ssim`, so it too is inverted).  `none` models a NaN difference, which the
subtraction propagates. -/
def calculate_difference (method : DiffMethod) (f1 f2 : Image) : Option ℚ :=
  if f1.width ≠ f2.width ∨ f1.height ≠ f2.height then some 1
  else
    match method with
    | .Pixel => pixel_difference f1 f2
    | .Histogram => some (histogram_difference f1 f2)
    | .Ssim => (ssim f1 f2).map (fun s => 1 - s)

/-- `difference > threshold` with the IEEE rule that a NaN comparison is
false. -/
def diffExceeds : Option ℚ → ℚ → Bool
  | none, _ => false
  | some q, t => t < q

/-- `has_changed` (frame_diff.rs 48-59): first call is always a change; the
reference frame is replaced on every positive decision. -/
def FrameDiffer.has_changed (d : FrameDiffer) (current : Image) :
    Bool × FrameDiffer :=
  let changed :=
    match d.lastFrame with
    | none => true
    | some last => diffExceeds (calculate_difference d.method last current) d.threshold
  if changed then (true, { d with lastFrame := some current }) else (false, d)

/-! ## Capture queue overflow (screensearch-capture/src/capture.rs, 350-363) -/

/-- The overflow handling of `capture_loop`:
`if queue.push(frame).is_err() { let _ = queue.pop(); }` on a bounded
`ArrayQueue`.  When the queue is full the failed `push` consumes and drops
the NEW frame, then the oldest is popped; nothing re-enqueues the new
frame. -/
def enqueue_frame {α : Type} (cap : Nat) (q : List α) (x : α) : List α :=
  if q.length < cap then q ++ [x] else q.drop 1

/-- Modelled from the spec: the bounded-FIFO oldest-drop policy of §4.2
step 5 — on overflow the oldest frame is dropped and the new frame is
enqueued. -/
def enqueue_frame_spec {α : Type} (cap : Nat) (q : List α) (x : α) : List α :=
  if q.length < cap then q ++ [x] else q.drop 1 ++ [x]

/-! ## Embedding generation (embedding_worker.rs 93-139 and
handlers/embeddings.rs 140-165) -/

/-- The chunk loop of the worker path, inside the per-frame transaction:
for each enumerated chunk, `embed` it (`?` propagates failure) and insert
the row (`?` propagates failure); the accumulated rows are the inserts of
the open transaction. -/
def workerLoop (frameId : Int) (embed : String → Except String (List ℚ))
    (insertOk : Nat → Bool) (rows : List EmbRow) :
    List (Nat × String) → Except String (List EmbRow)
  | [] => .ok rows
  | p :: rest =>
    match embed p.2 with
    | .error e => .error e
    | .ok v =>
        if insertOk p.1 then
          workerLoop frameId embed insertOk
            (rows ++ [⟨frameId, p.2, (p.1 : Int), v⟩]) rest
        else .error ("Failed to insert embedding")

/-- The per-frame body of `EmbeddingWorker::process_batch` (lines 93-139):
all chunk inserts run inside one transaction; any failure aborts and the
transaction is rolled back, so `.error` means zero rows recorded.
`insert_embedding` itself is absent from the store sources; a successful
insert is modelled (per the spec) as recording one row with the enumerate
index as `chunk_index`. -/
def process_frame_worker (frameId : Int) (chunks : List String)
    (embed : String → Except String (List ℚ)) (insertOk : Nat → Bool) :
    Except String (List EmbRow) :=
  workerLoop frameId embed insertOk [] chunks.enum

/-- The rows recorded for the frame by the worker path: the committed rows
on success, none on failure (transaction rollback). -/
def worker_rows_for_frame (frameId : Int) (chunks : List String)
    (embed : String → Except String (List ℚ)) (insertOk : Nat → Bool) :
    List EmbRow :=
  match process_frame_worker frameId chunks embed insertOk with
  | .ok rows => rows
  | .error _ => []

/-- The per-frame body of the HTTP `generate_embeddings` handler
(handlers/embeddings.rs 140-165): each chunk is embedded and inserted
individually with NO transaction; an embed or insert failure logs a warning
and `continue`s, keeping the rows already inserted. -/
def process_frame_http (frameId : Int) (chunks : List String)
    (embed : String → Except String (List ℚ)) (insertOk : Nat → Bool) :
    List EmbRow :=
  chunks.enum.foldl (fun rows p =>
    match embed p.2 with
    | .error _ => rows
    | .ok v =>
        if insertOk p.1 then rows ++ [⟨frameId, p.2, (p.1 : Int), v⟩]
        else rows) []

/-! ## Tag-to-frame association (handlers/system.rs 331-373 and
migrations.rs 194-202) -/

/-- The store state behind `add_tag_to_frame`: the row ids of `frames` and
`tags`, and the `frame_tags` junction rows. -/
structure TagDb where
  frameIds : List Int
  tagIds : List Int
  frameTags : List (Int × Int)
  deriving DecidableEq, Repr

/-- `DatabaseManager::add_tag_to_frame` (queries.rs 485-493), i.e.
`INSERT INTO frame_tags (frame_id, tag_id) VALUES (?, ?)` against the
schema of migrations.rs 194-202: both foreign keys are checked, and
`UNIQUE(frame_id, tag_id)` rejects duplicates.  The error payloads are the
SQLite constraint messages the handler string-matches on. -/
def db_add_tag_to_frame (db : TagDb) (frameId tagId : Int) :
    Except String TagDb :=
  if frameId ∉ db.frameIds ∨ tagId ∉ db.tagIds then
    .error ("FOREIGN KEY constraint failed")
  else if (frameId, tagId) ∈ db.frameTags then
    .error ("UNIQUE constraint failed: frame_tags.frame_id, frame_tags.tag_id")
  else .ok { db with frameTags := db.frameTags ++ [(frameId, tagId)] }

/-- HTTP outcomes of the handler. -/
inductive ApiResp where
  | success (msg : String)
  | notFound (msg : String)
  | dbError (msg : String)
  deriving DecidableEq, Repr

/-- `error_msg.contains(pat)`: substring containment, as containment of the
character list. -/
def containsSub (s pat : String) : Bool :=
  decide (pat.toList <:+: s.toList)

/-- The `add_tag_to_frame` handler (system.rs 331-373): insert, then remap a
foreign-key violation to 404 "Frame or tag not found" and a UNIQUE
violation to a success response (idempotent). -/
def add_tag_to_frame_handler (db : TagDb) (frameId tagId : Int) :
    TagDb × ApiResp :=
  match db_add_tag_to_frame db frameId tagId with
  | .ok db2 => (db2, .success ("Tag added to frame"))
  | .error msg =>
      if containsSub msg ("FOREIGN KEY") || containsSub msg ("foreign key") then
        (db, .notFound ("Frame or tag not found"))
      else if containsSub msg ("UNIQUE") then
        (db, .success ("Tag already assigned to frame"))
      else (db, .dbError msg)

/-- Whether a response is a success (HTTP 200 with `success: true`). -/
def ApiResp.isSuccess : ApiResp → Bool
  | .success _ => true
  | _ => false

/-! ## Concrete instances used by the claim theorems -/

/-- A frame with timestamp 0. -/
def exFrame : FrameRecord := ⟨1, 0, 0, "dev", none⟩

/-- A store whose only embedding row matches the query vector exactly. -/
def exDbTime : Db := ⟨[exFrame], [], [⟨1, "txt", 0, [1]⟩]⟩

/-- A store whose only embedding row is opposite to the query vector. -/
def exDbNeg : Db := ⟨[exFrame], [], [⟨1, "txt", 0, [-1]⟩]⟩

/-! ## Claim C7 -/

/-- Claim C7 (code bug): when the bounded frame queue is full, the spec says
the oldest frame is dropped and the new frame is enqueued.  The code pops
the oldest but the failed `push` already discarded the new frame: on a
capacity-2 queue holding frames 10 and 20, a new frame 30 leaves the queue
as `[20]` — the new frame is NOT present — while the spec-modelled
oldest-drop policy yields `[20, 30]`. -/
theorem capture_overflow_drops_new_frame :
    enqueue_frame 2 [10, 20] 30 = [20] ∧
    30 ∉ enqueue_frame 2 [10, 20] 30 ∧
    enqueue_frame_spec 2 [10, 20] 30 = [20, 30] :=
  ⟨by decide, by decide, by decide⟩

/-! ## Claim C1 -/

/-- Claim C1 (code bug): the store `hybrid_search` accepts no time window
and runs its lexical leg with `FrameFilter::default()` (no time filter),
while the RAG caller passes a `[start, end]` window and its comments state
the filtering happens inside.  Concretely: with the window `[10, 20]`
requested, the fused result still contains frame 1 whose timestamp 0 lies
outside the window; the spec-modelled windowed `hybrid_search` returns
nothing. -/
theorem hybrid_search_ignores_time_window :
    ((hybrid_search exDbTime (fun _ => none) [1] (1/2) 10 id id).map
      (fun r => (r.frame.id, r.frame.timestamp))) = [(1, 0)] ∧
    ¬ ((10 : Int) ≤ 0 ∧ (0 : Int) ≤ 20) ∧
    hybrid_search_spec exDbTime (fun _ => none) [1] (1/2) 10 10 20 id id = [] :=
  ⟨by decide, by decide, by decide⟩

/-! ## Claim C5: counterexample -/

/-- Claim C5 is false as stated: a stored vector opposite to the query has
cosine similarity −1, so with α = 1/2 `hybrid_search` produces the fused
score −1/2 < 0, outside the claimed interval `[0, …]`. -/
theorem hybrid_fused_score_negative :
    (hybrid_search exDbNeg (fun _ => none) [1] (1/2) 10 id id).map
      (fun r => r.similarityScore) = [-(1/2)] ∧ (-(1/2) : ℚ) < 0 := by
  constructor
  · norm_num [hybrid_search, semantic_search, search_ocr_text, ftsRows, groupRows,
      fuseSem, fuseLex, mapInsert, lexTriples, cosine_similarity, dotProduct, sqrtQ,
      Nat.sqrt, exDbNeg, exFrame, List.insertionSort, List.orderedInsert, semGE, candGE]
  · norm_num

/-! ## Claim C2 -/

/-- Any failing chunk (embed failure or insert failure) aborts the whole
per-frame worker loop with an error, regardless of the rows accumulated so
far. -/
lemma workerLoop_error (frameId : Int) (embed : String → Except String (List ℚ))
    (insertOk : Nat → Bool) :
    ∀ (l : List (Nat × String)) (acc : List EmbRow),
      (∃ p ∈ l, (embed p.2).isOk = false ∨ insertOk p.1 = false) →
      ∃ e, workerLoop frameId embed insertOk acc l = .error e := by
  intro l
  induction l with
  | nil =>
    intro acc h
    simp at h
  | cons p rest ih =>
    intro acc h
    rcases hemb : embed p.2 with e | v
    · exact ⟨e, by simp [workerLoop, hemb]⟩
    · rcases hins : insertOk p.1 with _ | _
      · exact ⟨"Failed to insert embedding", by simp [workerLoop, hemb, hins]⟩
      · have hrest : ∃ q ∈ rest, (embed q.2).isOk = false ∨ insertOk q.1 = false := by
          rcases h with ⟨q, hq, hbad⟩
          rcases List.mem_cons.1 hq with rfl | hq2
          · exfalso
            rcases hbad with hbad | hbad
            · rw [hemb] at hbad
              simp [Except.isOk, Except.toBool] at hbad
            · rw [hins] at hbad
              cases hbad
          · exact ⟨q, hq2, hbad⟩
        obtain ⟨e, he⟩ :=
          ih (acc ++ [⟨frameId, p.2, (p.1 : Int), v⟩]) hrest
        exact ⟨e, by simp [workerLoop, hemb, hins, he]⟩

/-- Claim C2 (amended): per-frame atomicity holds on the BACKGROUND WORKER
path: if embedding or inserting any chunk of a frame fails, zero embedding
rows are recorded for that frame (the transaction rolls back).  The claim
as stated — "in every embedding-generation path" — is refuted for the HTTP
path by `http_generate_partial_rows_remain`. -/
theorem worker_frame_atomicity (frameId : Int) (chunks : List String)
    (embed : String → Except String (List ℚ)) (insertOk : Nat → Bool)
    (h : ∃ p ∈ chunks.enum, (embed p.2).isOk = false ∨ insertOk p.1 = false) :
    worker_rows_for_frame frameId chunks embed insertOk = [] := by
  obtain ⟨e, he⟩ := workerLoop_error frameId embed insertOk chunks.enum [] h
  simp [worker_rows_for_frame, process_frame_worker, he]

/-- Witness for `worker_frame_atomicity`: two chunks, the insert of chunk 1
fails, and indeed no rows remain. -/
theorem worker_frame_atomicity_witness :
    worker_rows_for_frame 7 ["a", "b"] (fun _ => .ok [1]) (fun i => i == 0) = [] :=
  worker_frame_atomicity 7 ["a", "b"] (fun _ => .ok [1]) (fun i => i == 0) (by decide)

/-- Claim C2 is false as stated for the HTTP generation path: with two
chunks and the insert of chunk 1 failing, the row for chunk 0 remains —
not zero rows. -/
theorem http_generate_partial_rows_remain :
    process_frame_http 7 ["a", "b"] (fun _ => .ok [1]) (fun i => i == 0)
      = [⟨7, "a", 0, [1]⟩] ∧
    process_frame_http 7 ["a", "b"] (fun _ => .ok [1]) (fun i => i == 0) ≠ [] :=
  ⟨by decide, by decide⟩

/-! ## Claim C6 -/

/-- On worker success the recorded chunk indices extend the accumulator with
the enumerate indices, in order. -/
lemma workerLoop_ok_map (frameId : Int) (embed : String → Except String (List ℚ))
    (insertOk : Nat → Bool) :
    ∀ (l : List (Nat × String)) (acc rows : List EmbRow),
      workerLoop frameId embed insertOk acc l = .ok rows →
      rows.map (fun r => r.chunkIndex)
        = acc.map (fun r => r.chunkIndex) ++ l.map (fun p => (p.1 : Int)) := by
  intro l
  induction l with
  | nil =>
    intro acc rows h
    simp [workerLoop] at h
    simp [h]
  | cons p rest ih =>
    intro acc rows h
    rcases hemb : embed p.2 with e | v
    · simp [workerLoop, hemb] at h
    · rcases hins : insertOk p.1 with _ | _
      · simp [workerLoop, hemb, hins] at h
      · rw [workerLoop, hemb] at h
        simp only [hins, if_true] at h
        have := ih _ rows h
        simp at this
        simp [this]

/-- Claim C6 (amended): on the BACKGROUND WORKER path, whenever a frame is
processed successfully its recorded `chunk_index` values are exactly
`0, 1, …, N−1` in order (and on failure zero rows are recorded, by
`worker_frame_atomicity`); the claim as stated — "every
embedding-generation path … even when embedding an individual chunk
fails" — is refuted for the HTTP path by `http_generate_chunk_gap`. -/
theorem worker_chunk_indices_contiguous (frameId : Int) (chunks : List String)
    (embed : String → Except String (List ℚ)) (insertOk : Nat → Bool)
    (rows : List EmbRow)
    (h : process_frame_worker frameId chunks embed insertOk = .ok rows) :
    rows.map (fun r => r.chunkIndex)
      = (List.range chunks.length).map (fun n : Nat => (n : Int)) := by
  have h1 := workerLoop_ok_map frameId embed insertOk chunks.enum [] rows h
  simp only [List.map_nil, List.nil_append] at h1
  have h2 : chunks.enum.map (fun p => (p.1 : Int))
      = (List.range chunks.length).map (fun n : Nat => (n : Int)) := by
    have h3 : chunks.enum.map (fun p => (p.1 : Int))
        = (chunks.enum.map Prod.fst).map (fun n : Nat => (n : Int)) := by
      rw [List.map_map]
      rfl
    rw [h3, List.enum_map_fst]
  rw [h1, h2]

/-- Witness for `worker_chunk_indices_contiguous`: two chunks, everything
succeeds, and the recorded indices are `[0, 1]`. -/
theorem worker_chunk_indices_contiguous_witness :
    (([⟨9, "x", 0, [1]⟩, ⟨9, "y", 1, [1]⟩] : List EmbRow).map
      (fun r => r.chunkIndex)) = (List.range 2).map (fun n : Nat => (n : Int)) :=
  worker_chunk_indices_contiguous 9 ["x", "y"] (fun _ => .ok [1]) (fun _ => true)
    [⟨9, "x", 0, [1]⟩, ⟨9, "y", 1, [1]⟩] (by simp [process_frame_worker, workerLoop, List.enum])

/-- Claim C6 is false as stated for the HTTP generation path: with three
chunks and the embedding of chunk 1 failing, the recorded indices are
`[0, 2]`, while a contiguous range of two rows would be `[0, 1]`. -/
theorem http_generate_chunk_gap :
    (process_frame_http 7 ["a", "b", "c"]
        (fun s => if s = "b" then .error ("embed failed") else .ok [1])
        (fun _ => true)).map (fun r => r.chunkIndex) = [0, 2] ∧
    (List.range 2).map (fun n : Nat => (n : Int)) = [0, 1] ∧
    ([0, 2] : List Int) ≠ [0, 1] :=
  ⟨by decide, by decide, by decide⟩

/-! ## Claim C9 -/

/-- Claim C9: adding the same tag to a frame twice yields a single
`(frame_id, tag_id)` association and both requests receive a success
response (the handler remaps the UNIQUE violation on the pair to success),
and a foreign-key violation — missing frame or tag — is remapped to a 404
"Frame or tag not found" with the store unchanged. -/
theorem add_tag_idempotent_and_fk_notfound (db : TagDb) (frameId tagId : Int)
    (hf : frameId ∈ db.frameIds) (ht : tagId ∈ db.tagIds)
    (hnew : (frameId, tagId) ∉ db.frameTags) :
    (add_tag_to_frame_handler db frameId tagId).2.isSuccess = true ∧
    (add_tag_to_frame_handler
      (add_tag_to_frame_handler db frameId tagId).1 frameId tagId).2.isSuccess
        = true ∧
    (add_tag_to_frame_handler
      (add_tag_to_frame_handler db frameId tagId).1 frameId
        tagId).1.frameTags.count (frameId, tagId) = 1 ∧
    (∀ f t : Int, f ∉ db.frameIds ∨ t ∉ db.tagIds →
      (add_tag_to_frame_handler db f t).2 = .notFound ("Frame or tag not found") ∧
      (add_tag_to_frame_handler db f t).1 = db) := by
  have hins : db_add_tag_to_frame db frameId tagId
      = .ok { db with frameTags := db.frameTags ++ [(frameId, tagId)] } := by
    simp [db_add_tag_to_frame, hf, ht, hnew]
  have hstep1 : add_tag_to_frame_handler db frameId tagId
      = ({ db with frameTags := db.frameTags ++ [(frameId, tagId)] },
         .success ("Tag added to frame")) := by
    simp [add_tag_to_frame_handler, hins]
  have hmem2 : (frameId, tagId) ∈ db.frameTags ++ [(frameId, tagId)] := by
    simp
  have hins2 : db_add_tag_to_frame
      { db with frameTags := db.frameTags ++ [(frameId, tagId)] } frameId tagId
      = .error ("UNIQUE constraint failed: frame_tags.frame_id, frame_tags.tag_id") := by
    simp [db_add_tag_to_frame, hf, ht, hmem2]
  have hstep2 : add_tag_to_frame_handler
      { db with frameTags := db.frameTags ++ [(frameId, tagId)] } frameId tagId
      = ({ db with frameTags := db.frameTags ++ [(frameId, tagId)] },
         .success ("Tag already assigned to frame")) := by
    have c1 : containsSub
        ("UNIQUE constraint failed: frame_tags.frame_id, frame_tags.tag_id")
        ("FOREIGN KEY") = false := by decide
    have c2 : containsSub
        ("UNIQUE constraint failed: frame_tags.frame_id, frame_tags.tag_id")
        ("foreign key") = false := by decide
    have c3 : containsSub
        ("UNIQUE constraint failed: frame_tags.frame_id, frame_tags.tag_id")
        ("UNIQUE") = true := by decide
    simp [add_tag_to_frame_handler, hins2, c1, c2, c3]
  refine ⟨by simp [hstep1, ApiResp.isSuccess], by simp [hstep1, hstep2, ApiResp.isSuccess],
    ?_, ?_⟩
  · rw [hstep1]
    simp only [hstep2]
    rw [List.count_append]
    simp [List.count_eq_zero.mpr hnew]
  · intro f t hft
    have hinsf : db_add_tag_to_frame db f t
        = .error ("FOREIGN KEY constraint failed") := by
      simp only [db_add_tag_to_frame]
      rw [if_pos hft]
    have c1 : containsSub ("FOREIGN KEY constraint failed") ("FOREIGN KEY")
        = true := by decide
    constructor
    · simp [add_tag_to_frame_handler, hinsf, c1]
    · simp [add_tag_to_frame_handler, hinsf, c1]

/-- Witness for `add_tag_idempotent_and_fk_notfound`: a store with frame 1
and tag 5; the duplicate add succeeds and the dangling add of tag 5 to the
missing frame 2 yields 404. -/
theorem add_tag_idempotent_and_fk_notfound_witness :
    (add_tag_to_frame_handler ⟨[1], [5], []⟩ 1 5).2.isSuccess = true ∧
    (add_tag_to_frame_handler ⟨[1], [5], []⟩ 2 5).2
      = .notFound ("Frame or tag not found") :=
  ⟨(add_tag_idempotent_and_fk_notfound ⟨[1], [5], []⟩ 1 5 (by decide) (by decide)
      (by decide)).1,
   ((add_tag_idempotent_and_fk_notfound ⟨[1], [5], []⟩ 1 5 (by decide) (by decide)
      (by decide)).2.2.2 2 5 (by decide)).1⟩

/-! ## Claim C10 -/

/-- The exact square root of zero is zero. -/
lemma sqrtQ_zero : sqrtQ 0 = 0 := by
  simp [sqrtQ]

/-- Length mismatch forces a zero similarity. -/
lemma cosine_length_ne (a b : List ℚ) (h : a.length ≠ b.length) :
    cosine_similarity a b = 0 := by
  simp [cosine_similarity, h]

/-- A store whose only embedding has a different dimension from the query
vector `[1]`. -/
def exDbMismatch : Db := ⟨[exFrame], [], [⟨1, "t", 0, [1, 2]⟩]⟩

/-- Claim C10: `cosine_similarity` is total and never divides by zero — it
returns `0.0` whenever the vectors have different lengths, are empty, or
either has zero norm — and consequently `semantic_search` assigns score
`0.0` (rather than failing) when every stored embedding decodes to a
dimension different from the query vector. -/
theorem cosine_similarity_guards :
    (∀ a b : List ℚ, a.length ≠ b.length → cosine_similarity a b = 0) ∧
    (∀ b : List ℚ, cosine_similarity [] b = 0) ∧
    (∀ a b : List ℚ, dotProduct a a = 0 ∨ dotProduct b b = 0 →
      cosine_similarity a b = 0) ∧
    (∀ (db : Db) (q : List ℚ) (lim : Int),
      (∀ row ∈ db.embeddings, row.vector.length ≠ q.length) →
      ∀ res ∈ semantic_search db q lim, res.similarityScore = 0) := by
  refine ⟨cosine_length_ne, ?_, ?_, ?_⟩
  · intro b
    simp [cosine_similarity]
  · intro a b h
    by_cases hg : a.length ≠ b.length ∨ a.isEmpty
    · simp only [cosine_similarity]
      rw [if_pos hg]
    · rcases h with h | h <;>
        simp [cosine_similarity, hg, h, sqrtQ_zero]
  · intro db q lim hrows res hres
    simp only [semantic_search, List.mem_filterMap] at hres
    obtain ⟨c, hc, hsome⟩ := hres
    have hscore : res.similarityScore = c.score := by
      rcases hfind : db.frames.find? (fun f => f.id = c.frameId) with _ | f
      · rw [hfind] at hsome
        simp at hsome
      · rw [hfind] at hsome
        simp at hsome
        rw [← hsome]
    have hc2 : c ∈ List.insertionSort candGE (db.embeddings.map (fun r =>
        ({ frameId := r.frameId, chunkText := r.chunkText,
           chunkIndex := r.chunkIndex,
           score := cosine_similarity q r.vector } : Candidate))) :=
      List.take_subset _ _ hc
    have hc3 := (List.mem_insertionSort candGE).1 hc2
    obtain ⟨row, hrow, hrc⟩ := List.mem_map.1 hc3
    have : c.score = cosine_similarity q row.vector := by
      rw [← hrc]
    rw [hscore, this]
    exact cosine_length_ne q row.vector fun hlen => hrows row hrow hlen.symm

/-- Witness for `cosine_similarity_guards`: a 2-dimensional vector against a
1-dimensional one scores `0`, and the store with only that stored vector
gives the semantic result score `0`. -/
theorem cosine_similarity_guards_witness :
    cosine_similarity [1] [1, 2] = 0 ∧
    (⟨exFrame, "t", 0, 0⟩ : SemanticResult).similarityScore = 0 :=
  ⟨cosine_similarity_guards.1 [1] [1, 2] (by decide),
   cosine_similarity_guards.2.2.2 exDbMismatch [1] 10 (by decide)
     ⟨exFrame, "t", 0, 0⟩ (by decide)⟩

/-! ## Claim C3 -/

/-- A high-relevance frame at timestamp 100. -/
def rrFrameA : FrameRecord := ⟨1, 100, 0, "dev", none⟩

/-- A frame at timestamp 0. -/
def rrFrameB : FrameRecord := ⟨2, 0, 0, "dev", none⟩

/-- A result whose base score 1/2 is below the threshold but whose combined
score (with the recency boost) is above it. -/
def rrResA : SemanticResult := ⟨rrFrameA, "a", 0, 1/2⟩

/-- A result safely above the threshold. -/
def rrResB : SemanticResult := ⟨rrFrameB, "a", 0, 1⟩

/-- `top_k = 10`, `recency_weight = 1/4`, `length_weight = 0`,
`min_score = 3/5`. -/
def rrConfig : RerankConfig := ⟨10, 1/4, 0, 3/5⟩

/-- Claim C3 is false as stated: the source applies `min_score` FIRST, to
the raw base scores, not as the final step to the combined scores.  On this
input `rrResA` (base 1/2 < 3/5, combined 3/4 ≥ 3/5) is dropped by the code
but kept by the claim-order pipeline, so the two outputs differ. -/
theorem rerank_min_score_before_boosts :
    rerank_results [rrResA, rrResB] rrConfig = [⟨rrFrameB, "a", 0, 1⟩] ∧
    rerank_claim_order [rrResA, rrResB] rrConfig
      = [⟨rrFrameB, "a", 0, 1⟩, ⟨rrFrameA, "a", 0, 3/4⟩] ∧
    rerank_results [rrResA, rrResB] rrConfig
      ≠ rerank_claim_order [rrResA, rrResB] rrConfig := by
  have h1 : rerank_results [rrResA, rrResB] rrConfig = [⟨rrFrameB, "a", 0, 1⟩] := by
    norm_num [rerank_results, combinedScores, rrResA, rrResB, rrConfig, rrFrameA,
      rrFrameB, dedupTake, List.insertionSort, List.orderedInsert, pairGE,
      show ("a" : String).length = 1 from rfl]
  have h2 : rerank_claim_order [rrResA, rrResB] rrConfig
      = [⟨rrFrameB, "a", 0, 1⟩, ⟨rrFrameA, "a", 0, 3/4⟩] := by
    norm_num [rerank_claim_order, combinedScores, rrResA, rrResB, rrConfig,
      rrFrameA, rrFrameB, dedupAll, List.insertionSort, List.orderedInsert, pairGE,
      show ("a" : String).length = 1 from rfl]
  refine ⟨h1, h2, ?_⟩
  rw [h1, h2]
  simp

/-- Every output entry of the dedup loop is one of the scored input pairs,
with its score overwritten by the combined score. -/
lemma dedupTake_mem (topK : Nat) :
    ∀ (l : List (ℚ × SemanticResult)) (seen : List Int) (o : SemanticResult),
      o ∈ dedupTake topK seen l →
      ∃ p ∈ l, o = { p.2 with similarityScore := p.1 } := by
  intro l
  induction l with
  | nil =>
    intro seen o ho
    simp [dedupTake] at ho
  | cons p rest ih =>
    intro seen o ho
    rw [dedupTake] at ho
    by_cases hseen : p.2.frame.id ∈ seen
    · rw [if_pos hseen] at ho
      obtain ⟨q, hq, hqo⟩ := ih seen o ho
      exact ⟨q, List.mem_cons_of_mem _ hq, hqo⟩
    · rw [if_neg hseen] at ho
      rcases List.mem_cons.1 ho with rfl | ho2
      · exact ⟨p, List.mem_cons_self _ _, rfl⟩
      · by_cases hbreak : seen.length + 1 < topK
        · rw [if_pos hbreak] at ho2
          obtain ⟨q, hq, hqo⟩ := ih _ o ho2
          exact ⟨q, List.mem_cons_of_mem _ hq, hqo⟩
        · rw [if_neg hbreak] at ho2
          cases ho2

/-- The dedup loop emits pairwise-distinct frame ids, none of them in
`seen`. -/
lemma dedupTake_ids (topK : Nat) :
    ∀ (l : List (ℚ × SemanticResult)) (seen : List Int),
      ((dedupTake topK seen l).map (fun r => r.frame.id)).Nodup ∧
      ∀ i ∈ (dedupTake topK seen l).map (fun r => r.frame.id), i ∉ seen := by
  intro l
  induction l with
  | nil =>
    intro seen
    simp [dedupTake]
  | cons p rest ih =>
    intro seen
    rw [dedupTake]
    by_cases hseen : p.2.frame.id ∈ seen
    · rw [if_pos hseen]
      exact ih seen
    · rw [if_neg hseen]
      by_cases hbreak : seen.length + 1 < topK
      · rw [if_pos hbreak]
        obtain ⟨hnd, hout⟩ := ih (p.2.frame.id :: seen)
        constructor
        · simp only [List.map_cons, List.nodup_cons]
          refine ⟨?_, hnd⟩
          intro hmem
          exact hout _ hmem (List.mem_cons_self _ _)
        · intro i hi
          simp only [List.map_cons, List.mem_cons] at hi
          rcases hi with rfl | hi
          · exact hseen
          · intro hiseen
            exact hout _ hi (List.mem_cons_of_mem _ hiseen)
      · rw [if_neg hbreak]
        constructor
        · simp
        · intro i hi
          simp at hi
          rw [hi]
          exact hseen

/-- The dedup loop emits at most `max (topK − |seen|) 1` entries. -/
lemma dedupTake_length (topK : Nat) :
    ∀ (l : List (ℚ × SemanticResult)) (seen : List Int),
      (dedupTake topK seen l).length ≤ max (topK - seen.length) 1 := by
  intro l
  induction l with
  | nil =>
    intro seen
    simp [dedupTake]
  | cons p rest ih =>
    intro seen
    rw [dedupTake]
    by_cases hseen : p.2.frame.id ∈ seen
    · rw [if_pos hseen]
      exact ih seen
    · rw [if_neg hseen]
      by_cases hbreak : seen.length + 1 < topK
      · rw [if_pos hbreak]
        have h1 := ih (p.2.frame.id :: seen)
        simp only [List.length_cons] at h1 ⊢
        have h2 : max (topK - (seen.length + 1)) 1 = topK - (seen.length + 1) := by
          omega
        have h3 : max (topK - seen.length) 1 = topK - seen.length := by
          omega
        omega
      · rw [if_neg hbreak]
        simp

/-- Each scored pair comes from a member of the list handed to
`combinedScores`, with the original record as its second component. -/
lemma combinedScores_mem (kept : List SemanticResult) (config : RerankConfig)
    (p : ℚ × SemanticResult) (hp : p ∈ combinedScores kept config) :
    p.2 ∈ kept := by
  simp only [combinedScores, List.mem_map] at hp
  obtain ⟨r, hr, hrp⟩ := hp
  rw [← hrp]
  exact hr

/-- Claim C3 (amended): `rerank_results` first drops entries whose RAW base
score is below `min_score`, then boosts, sorts, deduplicates keeping the
best entry per frame, and truncates to `top_k` (one entry can slip through
when `top_k = 0`, hence the `max · 1`).  Consequently every output entry
stems from an input whose raw score already met the threshold, output frame
ids are pairwise distinct, and at most `max top_k 1` entries are
returned. -/
theorem rerank_results_properties (results : List SemanticResult)
    (config : RerankConfig) :
    ((rerank_results results config).map (fun r => r.frame.id)).Nodup ∧
    (rerank_results results config).length ≤ max config.top_k 1 ∧
    ∀ o ∈ rerank_results results config, ∃ inp ∈ results,
      inp.frame.id = o.frame.id ∧ inp.chunkText = o.chunkText ∧
      inp.chunkIndex = o.chunkIndex ∧ config.min_score ≤ inp.similarityScore := by
  by_cases hr : results.isEmpty
  · have : results = [] := List.isEmpty_iff.1 hr
    subst this
    simp [rerank_results]
  · have hre : rerank_results results config
        = dedupTake config.top_k []
            (List.insertionSort pairGE
              (combinedScores
                (results.filter
                  (fun r => config.min_score ≤ r.similarityScore)) config)) := by
      rw [rerank_results, if_neg hr]
    refine ⟨?_, ?_, ?_⟩
    · rw [hre]
      exact (dedupTake_ids config.top_k _ []).1
    · rw [hre]
      have := dedupTake_length config.top_k
        (List.insertionSort pairGE
          (combinedScores
            (results.filter (fun r => config.min_score ≤ r.similarityScore))
            config)) []
      simpa using this
    · intro o ho
      rw [hre] at ho
      obtain ⟨p, hp, hop⟩ := dedupTake_mem config.top_k _ [] o ho
      have hp2 := (List.mem_insertionSort pairGE).1 hp
      have hp3 := combinedScores_mem _ config p hp2
      have hp4 := List.mem_filter.1 hp3
      refine ⟨p.2, hp4.1, ?_, ?_, ?_, ?_⟩
      · rw [hop]
      · rw [hop]
      · rw [hop]
      · exact of_decide_eq_true hp4.2

/-- Witness for `rerank_results_properties` at the concrete counterexample
input. -/
theorem rerank_results_properties_witness :
    ((rerank_results [rrResA, rrResB] rrConfig).map (fun r => r.frame.id)).Nodup ∧
    (rerank_results [rrResA, rrResB] rrConfig).length ≤ max rrConfig.top_k 1 :=
  ⟨(rerank_results_properties [rrResA, rrResB] rrConfig).1,
   (rerank_results_properties [rrResA, rrResB] rrConfig).2.1⟩

/-! ## Claim C8 -/

/-- An 8×8 all-white image. -/
def img8x8 : Image := ⟨8, 8, List.replicate 64 ⟨255, 255, 255, 255⟩⟩

/-- A 4×4 all-white image. -/
def img4x4 : Image := ⟨4, 4, List.replicate 16 ⟨255, 255, 255, 255⟩⟩

/-- Every pair obtained by zipping a list with itself is diagonal. -/
lemma mem_zip_self (l : List Pixel) : ∀ p ∈ l.zip l, p.1 = p.2 := by
  induction l with
  | nil => simp
  | cons x rest ih =>
    intro p hp
    rw [List.zip_cons_cons] at hp
    rcases List.mem_cons.1 hp with rfl | hp2
    · rfl
    · exact ih p hp2

/-- Zipping a list with itself never yields a differing pair. -/
lemma countP_zip_self_ne (l : List Pixel) :
    (l.zip l).countP (fun p => p.1 ≠ p.2) = 0 := by
  apply List.countP_eq_zero.2
  intro p hp
  simpa using mem_zip_self l p hp

/-- The pixel difference of an image against itself never exceeds a
nonnegative threshold (it is `0`, or NaN for an empty image). -/
lemma diffExceeds_pixel_self (f : Image) (t : ℚ) (ht : 0 ≤ t) :
    diffExceeds (pixel_difference f f) t = false := by
  rcases Nat.eq_zero_or_pos (f.width * f.height) with hz | hpos
  · simp [pixel_difference, hz, diffExceeds]
  · simp only [pixel_difference, countP_zip_self_ne]
    rw [if_neg (Nat.pos_iff_ne_zero.1 hpos)]
    simp only [diffExceeds, Nat.cast_zero, zero_div]
    exact decide_eq_false (not_lt.2 ht)

/-- The χ² distance of a histogram against itself is zero termwise. -/
lemma chiTerm_self (h : Nat) : chiTerm h h = 0 := by
  unfold chiTerm
  split_ifs <;> simp

/-- The histogram difference of a nonempty image against itself is zero. -/
lemma histogram_difference_self (f : Image) (hpos : 0 < f.width * f.height) :
    histogram_difference f f = 0 := by
  unfold histogram_difference
  rw [if_neg (Nat.pos_iff_ne_zero.1 hpos)]
  have hzero : ∀ channel : Pixel → Nat,
      ((List.range 16).map (fun i =>
        chiTerm (histCount f channel i) (histCount f channel i))).sum = 0 := by
    intro channel
    apply List.sum_eq_zero
    intro x hx
    obtain ⟨i, _, hi⟩ := List.mem_map.1 hx
    rw [← hi, chiTerm_self]
  rw [hzero, hzero, hzero]
  norm_num

/-- Zipping a rational list with itself squares each entry. -/
lemma zip_self_map_mul (g : List ℚ) :
    ((g.zip g).map (fun p => p.1 * p.2)).sum = (g.map (fun x => x * x)).sum := by
  induction g with
  | nil => simp
  | cons x rest ih => simp [ih]

/-- In exact arithmetic the SSIM of a window against itself is exactly 1
(the numerator and denominator coincide; a zero denominator also yields
1). -/
lemma ssim_window_vals_self (g : List ℚ) : ssim_window_vals g g = 1 := by
  simp only [ssim_window_vals, zip_self_map_mul]
  set m := g.sum / 64 with hm
  set vq := (g.map (fun x => x * x)).sum / 64 with hv
  have hND : (2 * m * m + ssimC1) * (2 * (vq - m * m) + ssimC2)
      = (m * m + m * m + ssimC1) * ((vq - m * m) + (vq - m * m) + ssimC2) := by
    ring
  by_cases hden :
      (m * m + m * m + ssimC1) * ((vq - m * m) + (vq - m * m) + ssimC2) = 0
  · rw [if_pos hden]
  · rw [if_neg hden, hND]
    exact div_self hden

/-- A list of ones sums to its length. -/
lemma sum_of_ones (l : List ℚ) (h : ∀ x ∈ l, x = 1) : l.sum = l.length := by
  induction l with
  | nil => simp
  | cons x rest ih =>
    have hx : x = 1 := h x (List.mem_cons_self _ _)
    have hr : rest.sum = rest.length := ih fun y hy => h y (List.mem_cons_of_mem _ hy)
    simp [hx, hr]
    ring

/-- A strictly positive exclusive bound yields at least one window start. -/
lemma windowStarts_ne_nil (lim : Nat) (h : 0 < lim) : windowStarts lim ≠ [] := by
  unfold windowStarts
  have : 0 < (lim + 7) / 8 := by omega
  intro hc
  rw [List.map_eq_nil_iff, List.range_eq_nil] at hc
  omega

/-- With more than 8 pixels in both directions, the SSIM of an image
against itself is exactly 1. -/
lemma ssim_self (f : Image) (hw : 8 < f.width) (hh : 8 < f.height) :
    ssim f f = some 1 := by
  simp only [ssim]
  rw [if_neg (by omega : ¬ (f.width < 8 ∨ f.height < 8))]
  set wins := (windowStarts (f.height - 8)).flatMap (fun y =>
    (windowStarts (f.width - 8)).map (fun x => ssim_window f f x y)) with hwins
  have hall : ∀ v ∈ wins, v = 1 := by
    intro v hv
    rw [hwins] at hv
    obtain ⟨y, _, hv2⟩ := List.mem_flatMap.1 hv
    obtain ⟨x, _, hv3⟩ := List.mem_map.1 hv2
    rw [← hv3]
    exact ssim_window_vals_self _
  have hssne : wins ≠ [] := by
    obtain ⟨y0, hy0⟩ := List.exists_mem_of_ne_nil _
      (windowStarts_ne_nil (f.height - 8) (by omega))
    obtain ⟨x0, hx0⟩ := List.exists_mem_of_ne_nil _
      (windowStarts_ne_nil (f.width - 8) (by omega))
    have : ssim_window f f x0 y0 ∈ wins := by
      rw [hwins]
      exact List.mem_flatMap.2 ⟨y0, hy0, List.mem_map.2 ⟨x0, hx0, rfl⟩⟩
    exact List.ne_nil_of_mem this
  have hlen : wins.length ≠ 0 := fun hc => hssne (List.length_eq_zero.1 hc)
  rw [if_neg hlen, sum_of_ones wins hall, div_self (Nat.cast_ne_zero.2 hlen)]

/-- Claim C8 is false as stated: in `Ssim` mode with the reasonable
threshold 1/2 ≥ 0 the SECOND call on an identical image returns `true`
again instead of `false`, in two geometries.  With an exactly-8×8 image NO
window is sampled (the loops run over `0..dim−8` exclusive) so `ssim`
returns `0.0`; with a 4×4 image `ssim` falls back to the pixel difference
`0.0` of the identical frames (frame_diff.rs 141-143).  Either way the
caller computes the difference `1.0 - 0.0 = 1.0 > threshold`. -/
theorem ssim_eight_by_eight_always_changed :
    (0 : ℚ) ≤ 1/2 ∧
    ((FrameDiffer.with_method (1/2) .Ssim).has_changed img8x8).1 = true ∧
    (((FrameDiffer.with_method (1/2) .Ssim).has_changed img8x8).2.has_changed
      img8x8).1 = true ∧
    ((FrameDiffer.with_method (1/2) .Ssim).has_changed img4x4).1 = true ∧
    (((FrameDiffer.with_method (1/2) .Ssim).has_changed img4x4).2.has_changed
      img4x4).1 = true := by
  refine ⟨by norm_num, by decide, ?_, by decide, ?_⟩
  · norm_num [FrameDiffer.has_changed, FrameDiffer.with_method,
      calculate_difference, ssim, windowStarts, diffExceeds, img8x8]
  · norm_num [FrameDiffer.has_changed, FrameDiffer.with_method,
      calculate_difference, ssim, pixel_difference, countP_zip_self_ne,
      diffExceeds, img4x4]
    have hcount : (List.replicate 16
        (({ r := 255, g := 255, b := 255, a := 255 } : Pixel),
          ({ r := 255, g := 255, b := 255, a := 255 } : Pixel))).countP
        (fun p => !decide (p.1 = p.2)) = 0 := by decide
    rw [hcount]
    norm_num

/-- Claim C8 (amended): a fresh differ always reports the first frame as
changed, and feeding the same image twice yields `true` then `false` for
every nonnegative threshold in `Pixel` mode, in `Histogram` mode on a
nonempty image, and in `Ssim` mode when both dimensions exceed 8.  The
remaining nonempty `Ssim` geometries repeat `true` instead: with a
dimension of at most 8, either zero windows are sampled (`ssim = 0`) or the
small-image fallback feeds the pixel difference `0` into the caller's
`1 − ssim` inversion, and both make the difference `1.0`; see
`ssim_eight_by_eight_always_changed`. -/
theorem differ_first_true_then_false (d : FrameDiffer) (img : Image)
    (hfresh : d.lastFrame = none) (ht : 0 ≤ d.threshold)
    (hmode : d.method = .Pixel ∨
      (d.method = .Histogram ∧ 0 < img.width * img.height) ∨
      (d.method = .Ssim ∧ 8 < img.width ∧ 8 < img.height)) :
    (d.has_changed img).1 = true ∧
    ((d.has_changed img).2.has_changed img).1 = false := by
  have h1 : d.has_changed img = (true, { d with lastFrame := some img }) := by
    simp [FrameDiffer.has_changed, hfresh]
  have hdims : ¬ (img.width ≠ img.width ∨ img.height ≠ img.height) := by simp
  have hdiff : diffExceeds (calculate_difference d.method img img) d.threshold
      = false := by
    rcases hmode with hm | ⟨hm, hpos⟩ | ⟨hm, hw, hh⟩
    · rw [hm]
      unfold calculate_difference
      rw [if_neg hdims]
      exact diffExceeds_pixel_self img d.threshold ht
    · rw [hm]
      unfold calculate_difference
      rw [if_neg hdims]
      simp only [histogram_difference_self img hpos, diffExceeds]
      exact decide_eq_false (not_lt.2 ht)
    · rw [hm]
      unfold calculate_difference
      rw [if_neg hdims]
      rw [ssim_self img hw hh]
      show diffExceeds (some (1 - 1)) d.threshold = false
      simp only [sub_self, diffExceeds]
      exact decide_eq_false (not_lt.2 ht)
  refine ⟨by rw [h1], ?_⟩
  rw [h1]
  simp [FrameDiffer.has_changed, hdiff]

/-- Witness for `differ_first_true_then_false`: a fresh pixel-mode differ
with threshold 0 on a 1×1 image. -/
theorem differ_first_true_then_false_witness :
    ((FrameDiffer.with_method 0 .Pixel).has_changed ⟨1, 1, [⟨0, 0, 0, 0⟩]⟩).1
      = true ∧
    (((FrameDiffer.with_method 0 .Pixel).has_changed
        ⟨1, 1, [⟨0, 0, 0, 0⟩]⟩).2.has_changed ⟨1, 1, [⟨0, 0, 0, 0⟩]⟩).1 = false :=
  differ_first_true_then_false (FrameDiffer.with_method 0 .Pixel)
    ⟨1, 1, [⟨0, 0, 0, 0⟩]⟩ rfl le_rfl (Or.inl rfl)

/-! ## Claim C4 -/

/-- The grouping-loop invariant of `search_ocr_text`: processing `rows`
after `done` extends the accumulated one-result-per-frame map, keeping
frame ids distinct and each result holding exactly the OCR rows of its
frame seen so far, in arrival order. -/
lemma groupRows_aux :
    ∀ (rows done : List FtsRow) (acc : List SearchResult),
      ((acc.map (fun r => r.frame.id)).Nodup) →
      (∀ res ∈ acc, res.ocrMatches
        = (done.filter (fun row => row.frame.id = res.frame.id)).map
            (fun row => row.ocr)) →
      (∀ row ∈ done, row.frame.id ∈ acc.map (fun r => r.frame.id)) →
      (((rows.foldl addRow acc).map (fun r => r.frame.id)).Nodup ∧
       (∀ res ∈ rows.foldl addRow acc, res.ocrMatches
         = ((done ++ rows).filter (fun row => row.frame.id = res.frame.id)).map
             (fun row => row.ocr)) ∧
       (∀ row ∈ done ++ rows,
         row.frame.id ∈ (rows.foldl addRow acc).map (fun r => r.frame.id))) := by
  intro rows
  induction rows with
  | nil =>
    intro done acc h1 h2 h3
    rw [List.foldl_nil, List.append_nil]
    exact ⟨h1, h2, h3⟩
  | cons row rest ih =>
    intro done acc h1 h2 h3
    have hstep : ∀ P : List SearchResult → Prop,
        P (rest.foldl addRow (addRow acc row)) →
        P ((row :: rest).foldl addRow acc) := by
      intro P hP
      simpa using hP
    by_cases hin : acc.any (fun r => r.frame.id = row.frame.id)
    · -- the frame is already present: its matches are extended
      have hadd : addRow acc row = acc.map (fun r =>
          if r.frame.id = row.frame.id then
            { r with ocrMatches := r.ocrMatches ++ [row.ocr] }
          else r) := by
        rw [addRow, if_pos hin]
      have hid : (addRow acc row).map (fun r => r.frame.id)
          = acc.map (fun r => r.frame.id) := by
        rw [hadd, List.map_map]
        apply List.map_congr_left
        intro r _
        by_cases hr : r.frame.id = row.frame.id <;> simp [hr]
      have h1b : ((addRow acc row).map (fun r => r.frame.id)).Nodup := by
        rw [hid]; exact h1
      have h2b : ∀ res ∈ addRow acc row, res.ocrMatches
          = ((done ++ [row]).filter
              (fun row2 => row2.frame.id = res.frame.id)).map
            (fun row2 => row2.ocr) := by
        intro res hres
        rw [hadd] at hres
        obtain ⟨r0, hr0, hr0e⟩ := List.mem_map.1 hres
        by_cases hr : r0.frame.id = row.frame.id
        · rw [if_pos hr] at hr0e
          rw [← hr0e]
          simp only [List.filter_append, List.map_append]
          have hrow : (List.filter
              (fun row2 => row2.frame.id = r0.frame.id) [row]) = [row] := by
            have heq : row.frame.id = r0.frame.id := hr.symm
            simp [List.filter_singleton, heq]
          rw [hrow, h2 r0 hr0]
          simp
        · rw [if_neg hr] at hr0e
          rw [← hr0e]
          simp only [List.filter_append, List.map_append]
          have hrow : (List.filter
              (fun row2 => row2.frame.id = r0.frame.id) [row]) = [] := by
            have hne : ¬ row.frame.id = r0.frame.id := fun hc => hr hc.symm
            simp [List.filter_singleton, hne]
          rw [hrow, h2 r0 hr0]
          simp
      have h3b : ∀ row2 ∈ done ++ [row],
          row2.frame.id ∈ (addRow acc row).map (fun r => r.frame.id) := by
        intro row2 hrow2
        rw [hid]
        rcases List.mem_append.1 hrow2 with hd | hl
        · exact h3 row2 hd
        · rcases List.mem_singleton.1 hl with rfl
          obtain ⟨r0, hr0, hr0e⟩ := List.any_eq_true.1 hin
          have : r0.frame.id = row2.frame.id := of_decide_eq_true hr0e
          rw [← this]
          exact List.mem_map.2 ⟨r0, hr0, rfl⟩
      have := ih (done ++ [row]) (addRow acc row) h1b h2b h3b
      rw [List.append_assoc, List.singleton_append] at this
      exact ⟨hstep (fun l => (l.map (fun r => r.frame.id)).Nodup) this.1,
        hstep (fun l => ∀ res ∈ l, res.ocrMatches
          = ((done ++ row :: rest).filter
              (fun row2 => row2.frame.id = res.frame.id)).map
            (fun row2 => row2.ocr)) this.2.1,
        hstep (fun l => ∀ row2 ∈ done ++ row :: rest,
          row2.frame.id ∈ l.map (fun r => r.frame.id)) this.2.2⟩
    · -- first occurrence of the frame: a fresh SearchResult is appended
      have hnone : ∀ r ∈ acc, r.frame.id ≠ row.frame.id := by
        intro r hr hc
        exact hin (List.any_eq_true.2 ⟨r, hr, decide_eq_true hc⟩)
      have hadd : addRow acc row = acc ++
          [{ frame := row.frame, ocrMatches := [row.ocr]
             relevanceScore := -row.rank }] := by
        rw [addRow, if_neg hin]
      have h1b : ((addRow acc row).map (fun r => r.frame.id)).Nodup := by
        rw [hadd, List.map_append]
        rw [List.nodup_append]
        refine ⟨h1, by simp, ?_⟩
        intro a ha hb
        simp only [List.map_cons, List.map_nil, List.mem_singleton] at hb
        obtain ⟨r0, hr0, hr0e⟩ := List.mem_map.1 ha
        exact hnone r0 hr0 (by rw [hr0e, hb])
      have h2b : ∀ res ∈ addRow acc row, res.ocrMatches
          = ((done ++ [row]).filter
              (fun row2 => row2.frame.id = res.frame.id)).map
            (fun row2 => row2.ocr) := by
        intro res hres
        rw [hadd] at hres
        rcases List.mem_append.1 hres with hold | hnew
        · have hrowne : (List.filter
              (fun row2 => row2.frame.id = res.frame.id) [row]) = [] := by
            have hne : ¬ row.frame.id = res.frame.id :=
              fun hc => hnone res hold hc.symm
            simp [List.filter_singleton, hne]
          simp only [List.filter_append, List.map_append, hrowne]
          rw [h2 res hold]
          simp
        · rcases List.mem_singleton.1 hnew with rfl
          have hdone : (done.filter
              (fun row2 => row2.frame.id = row.frame.id)) = [] := by
            rw [List.filter_eq_nil_iff]
            intro row2 hrow2 hc
            have hidin := h3 row2 hrow2
            obtain ⟨r0, hr0, hr0e⟩ := List.mem_map.1 hidin
            exact hnone r0 hr0 (by rw [hr0e, ← of_decide_eq_true hc])
          simp only [List.filter_append]
          rw [hdone]
          simp [List.filter_singleton]
      have h3b : ∀ row2 ∈ done ++ [row],
          row2.frame.id ∈ (addRow acc row).map (fun r => r.frame.id) := by
        intro row2 hrow2
        rw [hadd, List.map_append]
        rcases List.mem_append.1 hrow2 with hd | hl
        · exact List.mem_append_left _ (h3 row2 hd)
        · rcases List.mem_singleton.1 hl with rfl
          apply List.mem_append_right
          simp
      have := ih (done ++ [row]) (addRow acc row) h1b h2b h3b
      rw [List.append_assoc, List.singleton_append] at this
      exact ⟨hstep (fun l => (l.map (fun r => r.frame.id)).Nodup) this.1,
        hstep (fun l => ∀ res ∈ l, res.ocrMatches
          = ((done ++ row :: rest).filter
              (fun row2 => row2.frame.id = res.frame.id)).map
            (fun row2 => row2.ocr)) this.2.1,
        hstep (fun l => ∀ row2 ∈ done ++ row :: rest,
          row2.frame.id ∈ l.map (fun r => r.frame.id)) this.2.2⟩

/-- The grouping loop of `search_ocr_text` yields pairwise-distinct frames,
each holding exactly the matched OCR rows of its frame in arrival order. -/
lemma groupRows_spec (rows : List FtsRow) :
    ((groupRows rows).map (fun r => r.frame.id)).Nodup ∧
    ∀ res ∈ groupRows rows, res.ocrMatches
      = (rows.filter (fun row => row.frame.id = res.frame.id)).map
          (fun row => row.ocr) := by
  have := groupRows_aux rows [] [] (by simp) (by simp) (by simp)
  simpa [groupRows] using ⟨this.1, this.2.1⟩

/-- Claim C4 (amended): `search_ocr_text` returns at most one result per
frame (frame ids pairwise distinct), each result carries ALL of its frame
matched OCR rows, and the list is sorted by descending relevance — for
EVERY `HashMap` iteration order.  The frame-id tie-break of the original
claim is refuted by `search_ocr_text_tie_order_not_deterministic`. -/
theorem search_ocr_text_group_sort (db : Db) (rank : Int → Option ℚ)
    (filter : FrameFilter) (p : Pagination)
    (hashOrder : List SearchResult → List SearchResult)
    (hperm : ∀ l, (hashOrder l).Perm l) :
    (((search_ocr_text db rank filter p hashOrder).map
      (fun r => r.frame.id)).Nodup) ∧
    (search_ocr_text db rank filter p hashOrder).Sorted resGE ∧
    ∀ res ∈ search_ocr_text db rank filter p hashOrder,
      res.ocrMatches = ((ftsRows db rank filter p).filter
        (fun row => row.frame.id = res.frame.id)).map (fun row => row.ocr) := by
  have hperm2 : (search_ocr_text db rank filter p hashOrder).Perm
      (groupRows (ftsRows db rank filter p)) := by
    unfold search_ocr_text
    exact (List.perm_insertionSort resGE _).trans (hperm _)
  obtain ⟨hnd, hmat⟩ := groupRows_spec (ftsRows db rank filter p)
  refine ⟨?_, ?_, ?_⟩
  · exact ((hperm2.map (fun r => r.frame.id)).nodup_iff).2 hnd
  · exact List.sorted_insertionSort resGE _
  · intro res hres
    exact hmat res (hperm2.mem_iff.1 hres)

/-- Frame 1 for the tie-break counterexample. -/
def c4Frame1 : FrameRecord := ⟨1, 0, 0, "d", none⟩

/-- Frame 2 for the tie-break counterexample. -/
def c4Frame2 : FrameRecord := ⟨2, 0, 0, "d", none⟩

/-- Two frames, each with one OCR row matching at the same BM25 rank. -/
def c4Db : Db := ⟨[c4Frame1, c4Frame2], [⟨11, 1, "hello"⟩, ⟨12, 2, "hello"⟩], []⟩

/-- Both OCR rows match with rank −1. -/
def c4Rank : Int → Option ℚ := fun i => if i = 11 ∨ i = 12 then some (-1) else none

/-- Claim C4 is false on its tie-break part: `search_ocr_text` sorts only by
relevance over `HashMap::into_values()`, whose iteration order is
unspecified; with two frames of EQUAL relevance, two iteration orders (the
identity and the reversal — a permutation of the grouped values) produce
different output orders, so equal-relevance results do not appear in any
fixed frame-id order. -/
theorem search_ocr_text_tie_order_not_deterministic :
    (List.reverse
        (groupRows (ftsRows c4Db c4Rank FrameFilter.default ⟨10, 0⟩))).Perm
      (groupRows (ftsRows c4Db c4Rank FrameFilter.default ⟨10, 0⟩)) ∧
    (search_ocr_text c4Db c4Rank FrameFilter.default ⟨10, 0⟩ id).map
      (fun r => r.relevanceScore)
      = (search_ocr_text c4Db c4Rank FrameFilter.default ⟨10, 0⟩
          List.reverse).map (fun r => r.relevanceScore) ∧
    (search_ocr_text c4Db c4Rank FrameFilter.default ⟨10, 0⟩ id).map
      (fun r => r.frame.id) = [1, 2] ∧
    (search_ocr_text c4Db c4Rank FrameFilter.default ⟨10, 0⟩ List.reverse).map
      (fun r => r.frame.id) = [2, 1] :=
  ⟨List.reverse_perm _, by decide, by decide, by decide⟩

/-- Witness for `search_ocr_text_group_sort` at the concrete two-frame
store with the identity iteration order. -/
theorem search_ocr_text_group_sort_witness :
    (((search_ocr_text c4Db c4Rank FrameFilter.default ⟨10, 0⟩ id).map
      (fun r => r.frame.id)).Nodup) ∧
    (search_ocr_text c4Db c4Rank FrameFilter.default ⟨10, 0⟩ id).Sorted resGE :=
  ⟨(search_ocr_text_group_sort c4Db c4Rank FrameFilter.default ⟨10, 0⟩ id
      (fun l => List.Perm.refl l)).1,
   (search_ocr_text_group_sort c4Db c4Rank FrameFilter.default ⟨10, 0⟩ id
      (fun l => List.Perm.refl l)).2.1⟩

/-! ## Claim C5: amended bounds -/

/-- The largest semantic score of a result list (0 when empty). -/
def maxScoreSem (l : List SemanticResult) : ℚ :=
  l.foldr (fun r m => max r.similarityScore m) 0

/-- The largest lexical relevance of a result list (0 when empty). -/
def maxScoreLex (l : List SearchResult) : ℚ :=
  l.foldr (fun r m => max r.relevanceScore m) 0

/-- The fusion keys `(frame_id, text)` contributed by one lexical result. -/
def lexKeys (s : SearchResult) : List (Int × String) :=
  s.ocrMatches.map (fun o => (s.frame.id, o.text))

/-- The running maximum is nonnegative. -/
lemma maxScoreSem_nonneg (l : List SemanticResult) : 0 ≤ maxScoreSem l := by
  induction l with
  | nil => simp [maxScoreSem]
  | cons r rest ih =>
    simp only [maxScoreSem, List.foldr_cons] at ih ⊢
    exact le_max_of_le_right ih

/-- The running maximum is nonnegative. -/
lemma maxScoreLex_nonneg (l : List SearchResult) : 0 ≤ maxScoreLex l := by
  induction l with
  | nil => simp [maxScoreLex]
  | cons r rest ih =>
    simp only [maxScoreLex, List.foldr_cons] at ih ⊢
    exact le_max_of_le_right ih

/-- Every member is bounded by the running maximum. -/
lemma le_maxScoreSem (l : List SemanticResult) :
    ∀ r ∈ l, r.similarityScore ≤ maxScoreSem l := by
  induction l with
  | nil => simp
  | cons x rest ih =>
    intro r hr
    rcases List.mem_cons.1 hr with rfl | hr2
    · exact le_max_left _ _
    · exact le_trans (ih r hr2) (le_max_right _ _)

/-- Every member is bounded by the running maximum. -/
lemma le_maxScoreLex (l : List SearchResult) :
    ∀ s ∈ l, s.relevanceScore ≤ maxScoreLex l := by
  induction l with
  | nil => simp
  | cons x rest ih =>
    intro r hr
    rcases List.mem_cons.1 hr with rfl | hr2
    · exact le_max_left _ _
    · exact le_trans (ih r hr2) (le_max_right _ _)

/-- Membership after a `HashMap::insert`: the new entry, or an old one. -/
lemma mapInsert_mem (m : MergedMap) (k : Int × String) (v : SemanticResult) :
    ∀ e ∈ mapInsert m k v, e = (k, v) ∨ e ∈ m := by
  intro e he
  unfold mapInsert at he
  by_cases hany : m.any (fun e => e.1 = k)
  · rw [if_pos hany] at he
    obtain ⟨e0, he0, he0e⟩ := List.mem_map.1 he
    by_cases hk : e0.1 = k
    · rw [if_pos hk] at he0e
      exact Or.inl he0e.symm
    · rw [if_neg hk] at he0e
      exact Or.inr (he0e ▸ he0)
  · rw [if_neg hany] at he
    rcases List.mem_append.1 he with h | h
    · exact Or.inr h
    · exact Or.inl (List.mem_singleton.1 h)

/-- Membership after `entry().and_modify().or_insert_with()`: the inserted
default, an untouched entry, or the boosted entry at the key. -/
lemma mapAddOrInsert_mem (m : MergedMap) (k : Int × String) (b : ℚ)
    (d : SemanticResult) :
    ∀ e ∈ mapAddOrInsert m k b d,
      e = (k, d) ∨ (e ∈ m ∧ e.1 ≠ k) ∨
      (∃ e0 ∈ m, e0.1 = k ∧ e.1 = k ∧
        e.2.similarityScore = e0.2.similarityScore + b) := by
  intro e he
  unfold mapAddOrInsert at he
  by_cases hany : m.any (fun e => e.1 = k)
  · rw [if_pos hany] at he
    obtain ⟨e0, he0, he0e⟩ := List.mem_map.1 he
    by_cases hk : e0.1 = k
    · rw [if_pos hk] at he0e
      refine Or.inr (Or.inr ⟨e0, he0, hk, ?_, ?_⟩)
      · rw [← he0e, hk]
      · rw [← he0e]
    · rw [if_neg hk] at he0e
      rw [← he0e]
      exact Or.inr (Or.inl ⟨he0, hk⟩)
  · rw [if_neg hany] at he
    rcases List.mem_append.1 he with h | h
    · refine Or.inr (Or.inl ⟨h, ?_⟩)
      intro hc
      exact hany (List.any_eq_true.2 ⟨e, h, decide_eq_true hc⟩)
    · exact Or.inl (List.mem_singleton.1 h)

/-- Phase 1 of the fusion only stores α-scaled semantic scores. -/
lemma fuseSem_mem (sem : List SemanticResult) (alpha : ℚ) :
    ∀ e ∈ fuseSem sem alpha,
      ∃ r ∈ sem, e.2.similarityScore = r.similarityScore * alpha := by
  suffices h : ∀ (l : List SemanticResult) (m0 : MergedMap),
      (∀ e ∈ m0, ∃ r ∈ sem, e.2.similarityScore = r.similarityScore * alpha) →
      (∀ r ∈ l, r ∈ sem) →
      ∀ e ∈ l.foldl (fun m res =>
          mapInsert m (res.frame.id, res.chunkText)
            { res with similarityScore := res.similarityScore * alpha }) m0,
        ∃ r ∈ sem, e.2.similarityScore = r.similarityScore * alpha by
    intro e he
    exact h sem [] (by simp) (fun r hr => hr) e he
  intro l
  induction l with
  | nil =>
    intro m0 hm0 _ e he
    exact hm0 e he
  | cons r rest ih =>
    intro m0 hm0 hsub e he
    simp only [List.foldl_cons] at he
    refine ih _ ?_ (fun r2 hr2 => hsub r2 (List.mem_cons_of_mem _ hr2)) e he
    intro e2 he2
    rcases mapInsert_mem _ _ _ e2 he2 with rfl | hold
    · exact ⟨r, hsub r (List.mem_cons_self _ _), rfl⟩
    · exact hm0 e2 hold

/-- Phase 2 of the fusion is the fold of the flattened contribution
stream. -/
lemma fuseLex_eq_flat (ftsList : List SearchResult) (alpha : ℚ) :
    ∀ m : MergedMap,
      fuseLex m ftsList alpha
        = (ftsList.flatMap (lexTriples alpha)).foldl
            (fun m t => mapAddOrInsert m t.1 t.2.1 t.2.2) m := by
  induction ftsList with
  | nil =>
    intro m
    simp [fuseLex]
  | cons fts rest ih =>
    intro m
    simp only [fuseLex, List.foldl_cons, List.flatMap_cons, List.foldl_append]
    exact ih _

/-- The keys of one result contributions are its `lexKeys`. -/
lemma lexTriples_keys (alpha : ℚ) (s : SearchResult) :
    (lexTriples alpha s).map (fun t => t.1) = lexKeys s := by
  unfold lexTriples lexKeys
  rw [List.map_map]
  have : ((fun t : (Int × String) × ℚ × SemanticResult => t.1) ∘
      (fun p : Nat × OcrTextRecord =>
        ((s.frame.id, p.2.text), s.relevanceScore * (1 - alpha),
          ({ frame := s.frame, chunkText := p.2.text, chunkIndex := (p.1 : Int),
             similarityScore := s.relevanceScore * (1 - alpha) } : SemanticResult))))
      = (fun p : Nat × OcrTextRecord => (s.frame.id, p.2.text)) := rfl
  rw [this]
  have h2 : (fun p : Nat × OcrTextRecord => (s.frame.id, p.2.text))
      = ((fun o : OcrTextRecord => (s.frame.id, o.text)) ∘ Prod.snd) := rfl
  rw [h2, ← List.map_map, List.enum_map_snd]

/-- The bound-preservation induction over the lexical contribution
stream: starting from a map whose scores are all within bounds and at most
`alpha·maxS` at every still-pending key, each step adds one boost to a
fresh key, so all final scores stay within
`[0, alpha·maxS + (1−alpha)·maxL]`. -/
lemma fuse_bounds (alpha maxS maxL : ℚ) (h0 : 0 ≤ alpha) (hS : 0 ≤ maxS) :
    ∀ (ts : List ((Int × String) × ℚ × SemanticResult)) (m : MergedMap),
      (∀ t ∈ ts, 0 ≤ t.2.1 ∧ t.2.1 ≤ (1 - alpha) * maxL ∧
        t.2.2.similarityScore = t.2.1) →
      ((ts.map (fun t => t.1)).Nodup) →
      (∀ e ∈ m, 0 ≤ e.2.similarityScore ∧
        e.2.similarityScore ≤ alpha * maxS + (1 - alpha) * maxL ∧
        (e.1 ∈ ts.map (fun t => t.1) →
          e.2.similarityScore ≤ alpha * maxS)) →
      ∀ e ∈ ts.foldl (fun m t => mapAddOrInsert m t.1 t.2.1 t.2.2) m,
        0 ≤ e.2.similarityScore ∧
        e.2.similarityScore ≤ alpha * maxS + (1 - alpha) * maxL := by
  intro ts
  induction ts with
  | nil =>
    intro m _ _ hm e he
    exact ⟨(hm e he).1, (hm e he).2.1⟩
  | cons t rest ih =>
    intro m hts hnd hm
    simp only [List.foldl_cons]
    rw [List.map_cons] at hnd
    have hndr : ((rest.map (fun t => t.1)).Nodup) := (List.nodup_cons.1 hnd).2
    have hhead : t.1 ∉ rest.map (fun t => t.1) := (List.nodup_cons.1 hnd).1
    obtain ⟨htb0, htb1, htbd⟩ := hts t (List.mem_cons_self _ _)
    refine ih (mapAddOrInsert m t.1 t.2.1 t.2.2)
      (fun t2 ht2 => hts t2 (List.mem_cons_of_mem _ ht2)) hndr ?_
    intro e he
    rcases mapAddOrInsert_mem m t.1 t.2.1 t.2.2 e he with rfl | ⟨hmem, hne⟩ |
      ⟨e0, he0, hk0, hk, hscore⟩
    · have hsc : ((t.1, t.2.2).2).similarityScore = t.2.1 := htbd
      have hnn : 0 ≤ alpha * maxS := mul_nonneg h0 hS
      refine ⟨?_, ?_, ?_⟩
      · rw [hsc]
        exact htb0
      · rw [hsc]
        linarith
      · intro hmemk
        exact absurd hmemk hhead
    · obtain ⟨p0, p1, p2⟩ := hm e hmem
      exact ⟨p0, p1, fun hm2 => p2 (by rw [List.map_cons]; exact List.mem_cons_of_mem _ hm2)⟩
    · obtain ⟨p0, p1, p2⟩ := hm e0 he0
      have hcap : e0.2.similarityScore ≤ alpha * maxS := by
        apply p2
        rw [List.map_cons, hk0]
        exact List.mem_cons_self _ _
      refine ⟨?_, ?_, ?_⟩
      · rw [hscore]
        linarith
      · rw [hscore]
        linarith
      · intro hmemk
        rw [hk] at hmemk
        exact absurd hmemk hhead

/-- Claim C5 (amended): for α ∈ [0, 1], provided every contributing
semantic score and lexical relevance is nonnegative and the lexical
`(frame, text)` fusion keys are pairwise distinct, every fused score of
`hybrid_search` lies in `[0, α·max_semantic + (1−α)·max_lexical]` — for
every `HashMap` iteration order.  The nonnegativity proviso is necessary:
see `hybrid_fused_score_negative`. -/
theorem hybrid_fusion_bounds_nonneg (db : Db) (rank : Int → Option ℚ)
    (qv : List ℚ) (alpha : ℚ) (limit : Int)
    (lexOrder : List SearchResult → List SearchResult)
    (mergedOrder : List SemanticResult → List SemanticResult)
    (h0 : 0 ≤ alpha) (h1 : alpha ≤ 1)
    (hsem : ∀ r ∈ semantic_search db qv limit, 0 ≤ r.similarityScore)
    (hlex : ∀ s ∈ search_ocr_text db rank FrameFilter.default ⟨limit, 0⟩
      lexOrder, 0 ≤ s.relevanceScore)
    (hkeys : ((search_ocr_text db rank FrameFilter.default ⟨limit, 0⟩
      lexOrder).flatMap lexKeys).Nodup)
    (hperm : ∀ l, (mergedOrder l).Perm l) :
    ∀ r ∈ hybrid_search db rank qv alpha limit lexOrder mergedOrder,
      0 ≤ r.similarityScore ∧
      r.similarityScore
        ≤ alpha * maxScoreSem (semantic_search db qv limit)
          + (1 - alpha) * maxScoreLex (search_ocr_text db rank
              FrameFilter.default ⟨limit, 0⟩ lexOrder) := by
  intro r hr
  simp only [hybrid_search] at hr
  set sem := semantic_search db qv limit with hsemdef
  set fts := search_ocr_text db rank FrameFilter.default ⟨limit, 0⟩ lexOrder
    with hftsdef
  have hr2 := List.take_subset _ _ hr
  have hr3 := (List.mem_insertionSort semGE).1 hr2
  have hr4 := (hperm _).mem_iff.1 hr3
  obtain ⟨e, hem, hesnd⟩ := List.mem_map.1 hr4
  rw [fuseLex_eq_flat] at hem
  have hts : ∀ t ∈ fts.flatMap (lexTriples alpha),
      0 ≤ t.2.1 ∧ t.2.1 ≤ (1 - alpha) * maxScoreLex fts ∧
      t.2.2.similarityScore = t.2.1 := by
    intro t ht
    obtain ⟨s2, hs2, ht2⟩ := List.mem_flatMap.1 ht
    obtain ⟨p, _, hpe⟩ := List.mem_map.1 ht2
    rw [← hpe]
    refine ⟨mul_nonneg (hlex s2 hs2) (by linarith), ?_, rfl⟩
    have hrel := le_maxScoreLex fts s2 hs2
    calc s2.relevanceScore * (1 - alpha)
        ≤ maxScoreLex fts * (1 - alpha) :=
          mul_le_mul_of_nonneg_right hrel (by linarith)
      _ = (1 - alpha) * maxScoreLex fts := mul_comm _ _
  have hnd : ((fts.flatMap (lexTriples alpha)).map (fun t => t.1)).Nodup := by
    rw [List.map_flatMap]
    have hfn : (fun s => (lexTriples alpha s).map (fun t => t.1)) = lexKeys :=
      funext (lexTriples_keys alpha)
    rw [hfn]
    exact hkeys
  have hm : ∀ e2 ∈ fuseSem sem alpha, 0 ≤ e2.2.similarityScore ∧
      e2.2.similarityScore
        ≤ alpha * maxScoreSem sem + (1 - alpha) * maxScoreLex fts ∧
      ((e2.1 ∈ (fts.flatMap (lexTriples alpha)).map (fun t => t.1)) →
        e2.2.similarityScore ≤ alpha * maxScoreSem sem) := by
    intro e2 he2
    obtain ⟨r0, hr0, hsc⟩ := fuseSem_mem sem alpha e2 he2
    have hcap : e2.2.similarityScore ≤ alpha * maxScoreSem sem := by
      rw [hsc]
      calc r0.similarityScore * alpha
          ≤ maxScoreSem sem * alpha :=
            mul_le_mul_of_nonneg_right (le_maxScoreSem sem r0 hr0) h0
        _ = alpha * maxScoreSem sem := mul_comm _ _
    have hLnn : 0 ≤ (1 - alpha) * maxScoreLex fts :=
      mul_nonneg (by linarith) (maxScoreLex_nonneg fts)
    refine ⟨?_, by linarith, fun _ => hcap⟩
    rw [hsc]
    exact mul_nonneg (hsem r0 hr0) h0
  have hbounds := fuse_bounds alpha (maxScoreSem sem) (maxScoreLex fts) h0
    (maxScoreSem_nonneg sem) (fts.flatMap (lexTriples alpha))
    (fuseSem sem alpha) hts hnd hm e hem
  rw [← hesnd]
  exact hbounds

/-- Witness for `hybrid_fusion_bounds_nonneg`: a store whose sole embedding
matches the query exactly (score 1) and no lexical matches; with α = 1/2
the single fused score 1/2 is within `[0, 1/2·1 + 1/2·0]`. -/
theorem hybrid_fusion_bounds_nonneg_witness :
    0 ≤ (⟨exFrame, "txt", 0, 1/2⟩ : SemanticResult).similarityScore ∧
    (⟨exFrame, "txt", 0, 1/2⟩ : SemanticResult).similarityScore
      ≤ 1/2 * maxScoreSem (semantic_search exDbTime [1] 10)
        + (1 - 1/2) * maxScoreLex (search_ocr_text exDbTime (fun _ => none)
            FrameFilter.default ⟨10, 0⟩ id) := by
  have hsemEval : semantic_search exDbTime [1] 10
      = [⟨exFrame, "txt", 0, 1⟩] := by
    norm_num [semantic_search, cosine_similarity, dotProduct, sqrtQ, Nat.sqrt,
      exDbTime, exFrame, List.insertionSort, List.orderedInsert, candGE]
    decide
  have hftsEval : search_ocr_text exDbTime (fun _ => none)
      FrameFilter.default ⟨10, 0⟩ id = [] := by decide
  have hmemEval : (⟨exFrame, "txt", 0, 1/2⟩ : SemanticResult)
      ∈ hybrid_search exDbTime (fun _ => none) [1] (1/2) 10 id id := by
    have : (hybrid_search exDbTime (fun _ => none) [1] (1/2) 10 id id).map
        (fun r => r.similarityScore) = [1/2] := by
      norm_num [hybrid_search, semantic_search, search_ocr_text, ftsRows,
        groupRows, fuseSem, fuseLex, mapInsert, lexTriples, cosine_similarity,
        dotProduct, sqrtQ, Nat.sqrt, exDbTime, exFrame, List.insertionSort,
        List.orderedInsert, semGE, candGE]
    have h2 : (hybrid_search exDbTime (fun _ => none) [1] (1/2) 10 id id)
        = [⟨exFrame, "txt", 0, 1/2⟩] := by
      norm_num [hybrid_search, semantic_search, search_ocr_text, ftsRows,
        groupRows, fuseSem, fuseLex, mapInsert, lexTriples, cosine_similarity,
        dotProduct, sqrtQ, Nat.sqrt, exDbTime, exFrame, List.insertionSort,
        List.orderedInsert, semGE, candGE]
    rw [h2]
    exact List.mem_singleton.2 rfl
  exact hybrid_fusion_bounds_nonneg exDbTime (fun _ => none) [1] (1/2) 10 id id
    (by norm_num) (by norm_num)
    (by
      rw [hsemEval]
      intro r hr
      rcases List.mem_singleton.1 hr with rfl
      norm_num)
    (by
      rw [hftsEval]
      intro s hs
      cases hs)
    (by
      rw [hftsEval]
      simp)
    (fun l => List.Perm.refl l)
    ⟨exFrame, "txt", 0, 1/2⟩ hmemEval

end ScreenSearch
